import Mathlib


/-!
# Verification of the urdubiometer metrical scanner

Shallow embedding of the urdubiometer source (graphparser and scanner
packages) in Lean 4, with theorems settling the specification claims.

Conventions:
* Python `dict`s keyed by strings are modelled as association lists
  (`List (key × value)`), preserving insertion order.
* Python exceptions are modelled with `Except PyErr`.
* Python `int` is modelled as `Int` where values can go negative,
  and as `Nat` where the source keeps them non-negative.
* Loops without a structural termination measure take a fuel parameter.
-/

/-- Python exceptions that the embedded code can raise. -/
inductive PyErr where
  /-- `ValueError` with its message relevant data (a position). -/
  | valueError (pos : Nat) : PyErr
  /-- `IndexError` (e.g. list index out of range). -/
  | indexError : PyErr
  /-- `KeyError` (missing dictionary key). -/
  | keyError : PyErr
  /-- `AssertionError` (failed `assert`). -/
  | assertionError : PyErr
  /-- `TypeError` (e.g. iterating over `None`). -/
  | typeError : PyErr
  /-- `AttributeError` (attribute access on `None`). -/
  | attributeError : PyErr
  /-- Fuel exhausted: the Python loop would still be running. -/
  | outOfFuel : PyErr
deriving DecidableEq, Repr

/-- Python list indexing `l[i]` for an `Int` index: negative indices wrap
from the end, out-of-range raises `IndexError`. -/
def pyIndex (l : List α) (i : Int) : Except PyErr α :=
  if h : 0 ≤ i ∧ i.toNat < l.length then
    Except.ok (l.get ⟨i.toNat, h.2⟩)
  else if h' : i < 0 ∧ 0 ≤ i + l.length ∧ (i + l.length).toNat < l.length then
    Except.ok (l.get ⟨(i + l.length).toNat, h'.2.2⟩)
  else
    Except.error PyErr.indexError

/- ### Scanner result types (`src/urdubiometer/scanner/types.py`) -/

/-- `UnitMatch`: metrical unit match (namedtuple). -/
structure UnitMatch where
  type : String
  rule_found : String
  orig_tokens : List String
deriving DecidableEq, Repr

/-- `NodeMatch`: verbose metrical unit match (namedtuple). -/
structure NodeMatch where
  type : String
  matched_tokens : List String
  node_key : Nat
  orig_tokens : List String
  rule_found : String
  token_i : Nat
  parent_key : Nat
deriving DecidableEq, Repr

/-- A scan match is either a `UnitMatch` (default) or a `NodeMatch`
(when `graph_details` is set). -/
inductive MatchData where
  | unit (m : UnitMatch) : MatchData
  | node (m : NodeMatch) : MatchData
deriving DecidableEq, Repr

/-- The `type` field common to both match variants. -/
def MatchData.type : MatchData → String
  | .unit m => m.type
  | .node m => m.type

/-- `ScanResult` (namedtuple): scan string, matches, meter key. -/
structure ScanResult where
  scan : String
  matches' : List MatchData
  meter_key : Option Nat
deriving DecidableEq, Repr

/- ### Default post-scan filter (`src/urdubiometer/scanner/default.py`) -/

/-- `_COST_OF = {"-": 20, "=": 10, "_": 20}`; `none` models a `KeyError`. -/
def costOfChar (c : Char) : Option Nat :=
  if c = '-' then some 20
  else if c = '=' then some 10
  else if c = '_' then some 20
  else none

/-- `cost_of`: sum of `_COST_OF[c]` over the characters of a scan string
(`KeyError` when a character is not a metrical symbol). -/
def costOfScan (s : String) : Except PyErr Nat :=
  s.toList.foldlM (fun acc c =>
    match costOfChar c with
    | some k => Except.ok (acc + k)
    | none => Except.error PyErr.keyError) 0

/-- Append index `i` to the group of key `k` in an insertion-ordered
grouping (the behaviour of `defaultdict(list)`). -/
def addToGroups (gs : List (Option Nat × List Nat)) (k : Option Nat) (i : Nat) :
    List (Option Nat × List Nat) :=
  match gs with
  | [] => [(k, [i])]
  | (k', is) :: rest =>
      if k' = k then (k', is ++ [i]) :: rest
      else (k', is) :: addToGroups rest k i

/-- `meters_found`: group the scan indices by `meter_key`, in first-occurrence
order of the keys (a `defaultdict(list)` filled by `enumerate(scans)`). -/
def groupsOf (scans : List ScanResult) : List (Option Nat × List Nat) :=
  (scans.enum).foldl (fun gs p => addToGroups gs p.2.meter_key p.1) []

/-- Python `min` over a nonempty list of pairs under lexicographic order;
the first minimal element wins ties. -/
def minPairFrom (p : Nat × Nat) : List (Nat × Nat) → Nat × Nat
  | [] => p
  | q :: rest =>
      if q.1 < p.1 ∨ (q.1 = p.1 ∧ q.2 < p.2) then minPairFrom q rest
      else minPairFrom p rest

/-- `cost_of(x)` inside `filter_scans`: reads `scans[x].scan` from the
(copied, partially `None`d) working list. `AttributeError` on a `None`
entry, `IndexError` out of range. -/
def costOfIdx (work : List (Option ScanResult)) (x : Nat) : Except PyErr Nat := do
  match work.get? x with
  | none => Except.error PyErr.indexError
  | some none => Except.error PyErr.attributeError
  | some (some r) => costOfScan r.scan

/-- Null out every index of `scan_keys` other than `min_idx`. -/
def nullExcept (work : List (Option ScanResult)) (scan_keys : List Nat)
    (min_idx : Nat) : List (Option ScanResult) :=
  scan_keys.foldl (fun a k => if k ≠ min_idx then a.set k none else a) work

/-- Process one `meters_found` group inside `filter_scans`: groups with
fewer than two scans are skipped; otherwise all indices other than the
(buggy) minimum index are nulled out. -/
def filterGroup (work : List (Option ScanResult)) (g : Option Nat × List Nat) :
    Except PyErr (List (Option ScanResult)) :=
  if g.2.length < 2 then Except.ok work
  else
    match g.2.enum.mapM (fun p => (costOfIdx work p.2).map (fun c => (c, p.1))) with
    | Except.error e => Except.error e
    | Except.ok [] => Except.error (PyErr.valueError 0)
    | Except.ok (p :: ps) => Except.ok (nullExcept work g.2 (minPairFrom p ps).2)

/-- `filter_scans` (`src/urdubiometer/scanner/default.py:43`):
"Remove worst of scans mapping to same meter." -/
def filterScans (scans : List ScanResult) : Except PyErr (List ScanResult) :=
  if scans.length < 2 then Except.ok scans
  else
    match (groupsOf scans).foldlM filterGroup (scans.map some) with
    | Except.error e => Except.error e
    | Except.ok final => Except.ok final.reduceOption

/- ### Lemmas about the grouping used by `filter_scans` -/

/-- Look up a group's index list by key (empty when absent). -/
def lookupGroup (gs : List (Option Nat × List Nat)) (k : Option Nat) : List Nat :=
  match gs with
  | [] => []
  | (k', is) :: rest => if k' = k then is else lookupGroup rest k

/-- One step of the `meters_found` fold. -/
def groupStep (gs : List (Option Nat × List Nat)) (p : Nat × ScanResult) :
    List (Option Nat × List Nat) :=
  addToGroups gs p.2.meter_key p.1

/- ### Counting lemmas -/

/-- Number of results in a scan list with the given meter key. -/
def countKey (l : List ScanResult) (k : Option Nat) : Nat :=
  l.countP (fun r => decide (r.meter_key = k))

/- ### Work-list lemmas for `filter_scans` -/

/-- `w'` arises from `w` by setting some entries to `None`. -/
def NulledFrom (w w' : List (Option ScanResult)) : Prop :=
  w'.length = w.length ∧ ∀ j, w'.get? j = w.get? j ∨ w'.get? j = some none

/- ### Claims C1 and C10 -/

/-- Concrete scan results exercising `filter_scans`. -/
def scanResA : ScanResult := ⟨"=", [], some 0⟩

/-- A costlier scan (cost 40) for meter 1. -/
def scanResB : ScanResult := ⟨"--", [], some 1⟩

/-- A cheaper scan (cost 10) for meter 1. -/
def scanResC : ScanResult := ⟨"=", [], some 1⟩

/- ### GraphParser data types (`src/urdubiometer/graphparser/_types.py`) -/

/-- `ParserRule` (namedtuple): production plus match conditions and cost. -/
structure ParserRule where
  production : String
  prev_classes : Option (List String)
  prev_tokens : Option (List String)
  tokens : List String
  next_tokens : Option (List String)
  next_classes : Option (List String)
  cost : Int
deriving DecidableEq, Repr

/-- `OnMatchRule` (namedtuple): insertion between class patterns. -/
structure OnMatchRule where
  prev_classes : List String
  next_classes : List String
  production : String
deriving DecidableEq, Repr

/-- `Whitespace` (namedtuple): whitespace settings of the parser. -/
structure Whitespace where
  default : String
  token_class : String
  consolidate : Bool
deriving DecidableEq, Repr

/-- A raw rule dict as handed to `_parser_rule_of` / `_cost_of` (context
fields are optional; `tokens` and `production` are validated-required). -/
structure RawRule where
  production : String
  prev_classes : Option (List String)
  prev_tokens : Option (List String)
  tokens : List String
  next_tokens : Option (List String)
  next_classes : Option (List String)
deriving DecidableEq, Repr

/- ### Rule cost (`src/urdubiometer/graphparser/initialize.py:39`) -/

def COST_OF_EXACT_TOKEN : Int := -100

def COST_OF_TOKEN_CLASS : Int := -101

/-- `count_of(x)`: `len(rule[x]) if rule.get(x) else 0` (an absent or empty
list counts 0). -/
def countOf (o : Option (List String)) : Nat := (o.getD []).length

/-- `_cost_of(rule)`: negative cost from the number of constraints. -/
def cost_of (r : RawRule) : Int :=
  COST_OF_TOKEN_CLASS * countOf r.prev_classes +
  COST_OF_EXACT_TOKEN * countOf r.prev_tokens +
  COST_OF_EXACT_TOKEN * r.tokens.length +
  COST_OF_EXACT_TOKEN * countOf r.next_tokens +
  COST_OF_TOKEN_CLASS * countOf r.next_classes

/-- `_parser_rule_of(rule)`: convert the raw rule to a `ParserRule`. -/
def parser_rule_of (r : RawRule) : ParserRule :=
  { production := r.production
    prev_classes := r.prev_classes
    prev_tokens := r.prev_tokens
    tokens := r.tokens
    next_tokens := r.next_tokens
    next_classes := r.next_classes
    cost := cost_of r }

/-- Rule order used by `GraphParser.__init__`: sort by cost (Python's
`sorted` is a stable ascending sort; so is insertion sort with `≤`). -/
def ruleLE (a b : ParserRule) : Prop := a.cost ≤ b.cost

instance : DecidableRel ruleLE := fun a b => inferInstanceAs (Decidable (a.cost ≤ b.cost))

instance : IsTotal ParserRule ruleLE := ⟨fun a b => Int.le_total a.cost b.cost⟩

instance : IsTrans ParserRule ruleLE := ⟨fun _ _ _ h₁ h₂ => Int.le_trans h₁ h₂⟩

/-- `self._rules = sorted([_parser_rule_of(r) for r in rules], key=cost)`. -/
def sortedRulesOf (rules : List RawRule) : List ParserRule :=
  List.insertionSort ruleLE (rules.map parser_rule_of)

/- ### Parser graph (`src/urdubiometer/graphparser/initialize.py:150`) -/

/-- Context constraints attached to the edge leading to a rule node. -/
structure RuleConstraints where
  prev_classes : Option (List String)
  prev_tokens : Option (List String)
  next_tokens : Option (List String)
  next_classes : Option (List String)
deriving DecidableEq, Repr

/-- Attribute record of a parser-graph edge. -/
structure PEdge where
  token : Option String
  cost : Option Int
  constraints : Option RuleConstraints
deriving DecidableEq, Repr

/-- Attribute record of a parser-graph node. -/
structure PNode where
  type : String
  token : Option String
  rule_key : Option Nat
  rule : Option ParserRule
  accepting : Bool
  token_children : List (String × Nat)
  rule_children : List Nat
  ordered_children : List (String × List Nat)
deriving DecidableEq, Repr

/-- A fresh node with only a type. -/
def PNode.ofType (t : String) : PNode :=
  ⟨t, none, none, none, false, [], [], []⟩

/-- The graphparser `DirectedGraph`: dense integer node keys and an edge
mapping keyed by (source, target). -/
structure PGraph where
  nodes : List PNode
  edges : List ((Nat × Nat) × PEdge)
deriving DecidableEq, Repr

def PGraph.addNode (g : PGraph) (n : PNode) : Nat × PGraph :=
  (g.nodes.length, { g with nodes := g.nodes ++ [n] })

def PGraph.addEdge (g : PGraph) (s t : Nat) (e : PEdge) : PGraph :=
  { g with edges := g.edges ++ [((s, t), e)] }

def PGraph.node? (g : PGraph) (k : Nat) : Option PNode := g.nodes.get? k

def PGraph.setNode (g : PGraph) (k : Nat) (n : PNode) : PGraph :=
  { g with nodes := g.nodes.set k n }

def PGraph.edge? (g : PGraph) (s t : Nat) : Option PEdge :=
  (g.edges.find? (fun e => e.1.1 == s && e.1.2 == t)).map (·.2)

def PGraph.updateEdge (g : PGraph) (s t : Nat) (f : PEdge → PEdge) : PGraph :=
  { g with edges := g.edges.map (fun e =>
      if e.1.1 == s && e.1.2 == t then (e.1, f e.2) else e) }

/-- Association-list lookup (Python `dict.get`). -/
def alistGet? (l : List (String × α)) (k : String) : Option α :=
  (l.find? (fun p => p.1 == k)).map (·.2)

/-- Python `dict[key] = value`: overwrite in place or append. -/
def alistSet (l : List (String × α)) (k : String) (v : α) : List (String × α) :=
  if (l.find? (fun p => p.1 == k)).isSome then
    l.map (fun p => if p.1 == k then (k, v) else p)
  else l ++ [(k, v)]

/-- Cost stored on the edge from `n` to `k` (all child edges carry costs
by construction; missing data defaults like Python's `or 0`). -/
def edgeCost (g : PGraph) (n k : Nat) : Int :=
  (((g.edge? n k).bind (·.cost)).getD 0)

/-- Cost of the rule stored on node `k` (rule nodes always carry rules). -/
def nodeRuleCost (g : PGraph) (k : Nat) : Int :=
  ((((g.node? k).bind (·.rule)).map (·.cost)).getD 0)

/-- Descend/extend the trie along one token of a rule
(`_graph_from`, inner `for token in rule.tokens` loop body). -/
def graphFromToken (rule : ParserRule) (st : PGraph × Nat) (token : String) :
    PGraph × Nat :=
  let (graph, parent_key) := st
  let parent_node := (graph.node? parent_key).getD (PNode.ofType "root")
  let token_children := parent_node.token_children
  let (token_node_key, graph) :=
    match alistGet? token_children token with
    | some k => (k, graph)
    | none =>
        let (k, g₁) := graph.addNode { PNode.ofType "token" with token := some token }
        let g₂ := g₁.addEdge parent_key k { token := some token, cost := none, constraints := none }
        let g₃ := g₂.setNode parent_key
          { parent_node with token_children := alistSet token_children token k }
        (k, g₃)
  let curr_cost := edgeCost graph parent_key token_node_key
  let graph :=
    if curr_cost > rule.cost then
      graph.updateEdge parent_key token_node_key (fun e => { e with cost := some rule.cost })
    else graph
  (graph, token_node_key)

/-- Insert one rule into the parser graph
(`_graph_from`, outer `for rule_key, rule in enumerate(rules)` body). -/
def graphFromRule (graph : PGraph) (rule_key : Nat) (rule : ParserRule) : PGraph :=
  let (graph, parent_key) := rule.tokens.foldl (graphFromToken rule) (graph, 0)
  let (rule_node_key, graph) := graph.addNode
    { PNode.ofType "rule" with rule_key := some rule_key, rule := some rule, accepting := true }
  let parent_node := (graph.node? parent_key).getD (PNode.ofType "root")
  let rule_children := parent_node.rule_children ++ [rule_node_key]
  let graph := graph.setNode parent_key
    { parent_node with rule_children :=
        List.insertionSort (fun x y => nodeRuleCost graph x ≤ nodeRuleCost graph y) rule_children }
  let constraints : Option RuleConstraints :=
    if (rule.prev_classes.getD []) ≠ [] ∨ (rule.prev_tokens.getD []) ≠ [] ∨
       (rule.next_tokens.getD []) ≠ [] ∨ (rule.next_classes.getD []) ≠ [] then
      some { prev_classes := if (rule.prev_classes.getD []) ≠ [] then rule.prev_classes else none
             prev_tokens := if (rule.prev_tokens.getD []) ≠ [] then rule.prev_tokens else none
             next_tokens := if (rule.next_tokens.getD []) ≠ [] then rule.next_tokens else none
             next_classes := if (rule.next_classes.getD []) ≠ [] then rule.next_classes else none }
    else none
  graph.addEdge parent_key rule_node_key
    { token := none, cost := some rule.cost, constraints := constraints }

/-- Post-pass of `_graph_from`: compute each node's `ordered_children`. -/
def orderedChildrenOf (graph : PGraph) (node_key : Nat) (node : PNode) :
    List (String × List Nat) :=
  let edgeLE : Nat → Nat → Prop := fun x y => edgeCost graph node_key x ≤ edgeCost graph node_key y
  have : DecidableRel edgeLE := fun x y => inferInstanceAs (Decidable (_ ≤ _))
  let base : List (String × List Nat) :=
    if node.rule_children ≠ [] then
      [("__rules__", List.insertionSort edgeLE node.rule_children)]
    else []
  node.token_children.foldl (fun oc (p : String × Nat) =>
    let lst := [p.2] ++ (if node.rule_children ≠ [] then node.rule_children else [])
    alistSet oc p.1 (List.insertionSort edgeLE lst)) base

/-- `_graph_from(rules)`: build the trie-shaped parser graph. -/
def graph_from (rules : List ParserRule) : PGraph :=
  let graph : PGraph := ⟨[PNode.ofType "root"], []⟩
  let graph := (rules.enum.foldl (fun g p => graphFromRule g p.1 p.2) graph)
  { graph with nodes := graph.nodes.enum.map (fun p =>
      { p.2 with ordered_children := orderedChildrenOf graph p.1 p.2 }) }

/- ### On-match lookup, tokenizer, and the GraphParser structure -/

/-- `_onmatch_rules_lookup(tokens, onmatch_rules)`: for every (current
token, previous token) pair, the sublist of on-match rules (in input
order) whose first next class contains the current token and whose last
previous class contains the previous token.  (Python indexes
`rule.next_classes[0]` / `rule.prev_classes[-1]`, raising `IndexError`
at construction on an empty class list; rules with empty class lists are
not representable in a constructed parser, and the well-formedness
hypotheses of the theorems below exclude them.) -/
def onmatchRulesLookup (tokens : List (String × List String))
    (onmatch_rules : List OnMatchRule) :
    List (String × List (String × List OnMatchRule)) :=
  tokens.map (fun tk => (tk.1, tokens.map (fun pk => (pk.1,
    onmatch_rules.filter (fun rule =>
      (rule.next_classes.head?.elim false (fun c => tk.2.contains c)) &&
      (rule.prev_classes.getLast?.elim false (fun c => pk.2.contains c)))))))

/-- `_tokenizer_from(tokens)`: token list sorted by length, longest first
(Python `list.sort(key=len, reverse=True)` is stable). -/
def tokenizerFrom (tokens : List String) : List String :=
  List.insertionSort (fun a b : String => b.length ≤ a.length) tokens

/-- `GraphParser`: all fields built by `__init__`, plus the `_input_tokens`
field written by `parse`. -/
structure GraphParser where
  tokens : List (String × List String)
  rules : List ParserRule
  onmatch_rules : List OnMatchRule
  onmatch_rules_lookup : List (String × List (String × List OnMatchRule))
  whitespace : Whitespace
  tokenizer : List String
  graph : PGraph
  input_tokens : Option (List String)
deriving DecidableEq, Repr

/-- `GraphParser.__init__` (validation aside): build every structural field;
`_input_tokens` starts as `None`. -/
def graphParserOf (tokens : List (String × List String)) (rules : List RawRule)
    (onmatch_rules : List OnMatchRule) (whitespace : Whitespace) : GraphParser :=
  let sortedRules := sortedRulesOf rules
  { tokens := tokens
    rules := sortedRules
    onmatch_rules := onmatch_rules
    onmatch_rules_lookup := onmatchRulesLookup tokens onmatch_rules
    whitespace := whitespace
    tokenizer := tokenizerFrom (tokens.map (·.1))
    graph := graph_from sortedRules
    input_tokens := none }

/-- A raw rule with a previous token, two tokens and a next class. -/
def cexRawRule : RawRule := ⟨"X", none, some ["x"], ["a", "b"], none, some ["c"]⟩

/- ### Tokenisation (`src/urdubiometer/graphparser/graphparser.py:289`) -/

/-- `self._tokenizer.match(input, pos)`: the regex alternation tries the
(longest-first sorted) tokens in order and returns the first that matches
at `pos`. -/
def tokenizerMatch (tokenizer : List String) (input : List Char) (pos : Nat) :
    Option String :=
  tokenizer.find? (fun t => t.toList.isPrefixOf (input.drop pos))

/-- `match_generator()`: successive matches, each starting where the last
ended.  Fuel bounds the loop (a zero-width token would loop forever in
Python; the theorems' hypotheses exclude the empty token). -/
def matchLoop (tokenizer : List String) (input : List Char) :
    Nat → Nat → List (String × Nat)
  | 0, _ => []
  | fuel + 1, pos =>
      match tokenizerMatch tokenizer input pos with
      | none => []
      | some t => (t, pos + t.length) :: matchLoop tokenizer input fuel (pos + t.length)

/-- `is_whitespace(token)`: `whitespace.token_class in tokens[token]`
(`KeyError` on an unknown token). -/
def isWhitespaceToken (tokens : List (String × List String)) (ws : Whitespace)
    (token : String) : Except PyErr Bool :=
  match alistGet? tokens token with
  | none => Except.error PyErr.keyError
  | some classes => Except.ok (classes.contains ws.token_class)

/-- The trailing-whitespace strip loop of `tokenize`, on the reversed
token list (`while is_whitespace(tokens[-1]): tokens.pop()` examines and
removes the last element, i.e. the head of the reversal; `tokens[-1]` on
an empty list raises `IndexError`). -/
def stripLeadingWsRev (tokens : List (String × List String)) (ws : Whitespace) :
    List String → Except PyErr (List String)
  | [] => Except.error PyErr.indexError
  | a :: rest => do
      let b ← isWhitespaceToken tokens ws a
      if b then stripLeadingWsRev tokens ws rest else return (a :: rest)

/-- The trailing-whitespace strip loop of `tokenize`. -/
def stripTrailingWs (tokens : List (String × List String)) (ws : Whitespace)
    (ts : List String) : Except PyErr (List String) :=
  (stripLeadingWsRev tokens ws ts.reverse).map List.reverse

/-- One step of the token-collecting loop of `tokenize`: state is the
accumulated token list and the `prev_whitespace` flag. -/
def tokenizeStep (tokens : List (String × List String)) (ws : Whitespace)
    (acc : List String × Bool) (m : String × Nat) :
    Except PyErr (List String × Bool) := do
  let b ← isWhitespaceToken tokens ws m.1
  if b then
    if acc.2 && ws.consolidate then
      return acc
    else
      return (acc.1 ++ [m.1], acc.2)
  else
    return (acc.1 ++ [m.1], false)

/-- `GraphParser.tokenize(input)`. -/
def GraphParser.tokenize (gp : GraphParser) (input : String) :
    Except PyErr (List String) := do
  let chars := input.toList
  let ms := matchLoop gp.tokenizer chars (chars.length + 1) 0
  let st ← ms.foldlM (tokenizeStep gp.tokens gp.whitespace)
    ([gp.whitespace.default], true)
  let toks ← if gp.whitespace.consolidate then
      stripTrailingWs gp.tokens gp.whitespace st.1
    else pure st.1
  let toks := toks ++ [gp.whitespace.default]
  if toks.length < 2 then
    Except.error PyErr.assertionError
  else if toks.length = 2 then
    Except.error (PyErr.valueError 0)
  else
    match ms.getLast? with
    | none => Except.error PyErr.typeError
    | some m =>
        if m.2 ≠ chars.length then
          Except.error (PyErr.valueError chars.length)
        else
          return toks

def exceptDecEq {ε α : Type} [DecidableEq ε] [DecidableEq α] :
    DecidableEq (Except ε α) := fun a b =>
  match a, b with
  | Except.error e₁, Except.error e₂ =>
      if h : e₁ = e₂ then isTrue (by rw [h]) else
        isFalse (by intro hh; cases hh; exact h rfl)
  | Except.error _, Except.ok _ => isFalse (by intro hh; cases hh)
  | Except.ok _, Except.error _ => isFalse (by intro hh; cases hh)
  | Except.ok a₁, Except.ok a₂ =>
      if h : a₁ = a₂ then isTrue (by rw [h]) else
        isFalse (by intro hh; cases hh; exact h rfl)

instance {ε α : Type} [DecidableEq ε] [DecidableEq α] : DecidableEq (Except ε α) :=
  exceptDecEq

/-- Tokens of the small concrete parser: `a` (class `c1`) and space (`wb`). -/
def cexTokens : List (String × List String) := [("a", ["c1"]), (" ", ["wb"])]

/-- Rule `a → A`. -/
def cexRuleA : RawRule := ⟨"A", none, none, ["a"], none, none⟩

/-- Rule `' ' → B`. -/
def cexRuleSp : RawRule := ⟨"B", none, none, [" "], none, none⟩

/-- Concrete parser with `consolidate=False`. -/
def tokParserF : GraphParser :=
  graphParserOf cexTokens [cexRuleA, cexRuleSp] [] ⟨" ", "wb", false⟩

/-- Concrete parser with `consolidate=True`. -/
def tokParserT : GraphParser :=
  graphParserOf cexTokens [cexRuleA, cexRuleSp] [] ⟨" ", "wb", true⟩

/- ### Constraint matching (`graphparser.py:91` and `graphparser.py:215`) -/

/-- `self._tokens[token]` (`KeyError` on an unknown token). -/
def classesOf (tokens : List (String × List String)) (tok : String) :
    Except PyErr (List String) :=
  match alistGet? tokens tok with
  | none => Except.error PyErr.keyError
  | some cls => Except.ok cls

/-- The position loop of `_match_tokens`: check each constraint value at
`tokens[start_i + i]` by class membership or token equality. -/
def matchTokensLoop (tokens : List (String × List String))
    (input_tokens : List String) (start_i : Int) (by_class : Bool) :
    List (Nat × String) → Except PyErr Bool
  | [] => Except.ok true
  | (i, cv) :: rest => do
      let tok ← pyIndex input_tokens (start_i + i)
      if by_class then
        let cls ← classesOf tokens tok
        if cls.contains cv then
          matchTokensLoop tokens input_tokens start_i by_class rest
        else return false
      else
        if tok ≠ cv then return false
        else matchTokensLoop tokens input_tokens start_i by_class rest

/-- `GraphParser._match_tokens(start_i, c_value, check_prev, check_next,
by_class)`: boundary checks, then the position loop. -/
def matchTokens (tokens : List (String × List String))
    (input_tokens : List String) (start_i : Int) (c_value : List String)
    (check_prev check_next by_class : Bool) : Except PyErr Bool :=
  if check_prev && decide (start_i < 0) then Except.ok false
  else if check_next &&
      decide (start_i + c_value.length > (input_tokens.length : Int)) then
    Except.ok false
  else matchTokensLoop tokens input_tokens start_i by_class c_value.enum

/-- `prev_classes` item of `_match_constraints`: window starts at
`token_i - 1 - len(prev_tokens) - len(prev_classes)`. -/
def constraintCheckPC (tokens : List (String × List String))
    (input_tokens : List String) (token_i : Nat) (c : RuleConstraints) :
    Except PyErr Bool :=
  match c.prev_classes with
  | none => pure true
  | some cv =>
      matchTokens tokens input_tokens
        ((token_i : Int) - 1 - ((c.prev_tokens.getD []).length) - cv.length)
        cv true false true

/-- `prev_tokens` item of `_match_constraints`: window starts at
`token_i - 1 - len(prev_tokens)`. -/
def constraintCheckPT (tokens : List (String × List String))
    (input_tokens : List String) (token_i : Nat) (c : RuleConstraints) :
    Except PyErr Bool :=
  match c.prev_tokens with
  | none => pure true
  | some cv =>
      matchTokens tokens input_tokens ((token_i : Int) - 1 - cv.length) cv true false false

/-- `next_tokens` item of `_match_constraints`: window starts at `token_i`. -/
def constraintCheckNT (tokens : List (String × List String))
    (input_tokens : List String) (token_i : Nat) (c : RuleConstraints) :
    Except PyErr Bool :=
  match c.next_tokens with
  | none => pure true
  | some cv => matchTokens tokens input_tokens (token_i : Int) cv false true false

/-- `next_classes` item of `_match_constraints`: window starts at
`token_i + len(next_tokens)`. -/
def constraintCheckNC (tokens : List (String × List String))
    (input_tokens : List String) (token_i : Nat) (c : RuleConstraints) :
    Except PyErr Bool :=
  match c.next_classes with
  | none => pure true
  | some cv =>
      matchTokens tokens input_tokens
        ((token_i : Int) + ((c.next_tokens.getD []).length)) cv false true true

/-- `GraphParser._match_constraints(target_edge, token_i)`: iterate the
constraint record in its insertion order (`prev_classes`, `prev_tokens`,
`next_tokens`, `next_classes`) and fail as soon as one is unsatisfied. -/
def matchConstraints (tokens : List (String × List String))
    (input_tokens : List String) (edge : PEdge) (token_i : Nat) :
    Except PyErr Bool := do
  match edge.constraints with
  | none => return true
  | some c =>
      let okPC ← constraintCheckPC tokens input_tokens token_i c
      if !okPC then return false
      else
        let okPT ← constraintCheckPT tokens input_tokens token_i c
        if !okPT then return false
        else
          let okNT ← constraintCheckNT tokens input_tokens token_i c
          if !okNT then return false
          else
            let okNC ← constraintCheckNC tokens input_tokens token_i c
            if !okNC then return false
            else return true

/-- Modelled from the spec (C5): a context window starting at `start`
checks that every position of the window lies in `[0, len(tokens))` and
that each position passes token equality or class membership. -/
def specWindowOK (tokens : List (String × List String))
    (input_tokens : List String) (start : Int) (cv : List String)
    (by_class : Bool) : Bool :=
  decide (0 ≤ start) && decide (start + cv.length ≤ (input_tokens.length : Int)) &&
  cv.enum.all (fun p =>
    match input_tokens.get? (start + p.1).toNat with
    | none => false
    | some tok =>
        if by_class then ((alistGet? tokens tok).getD []).contains p.2
        else tok == p.2)

/-- Modelled from the spec (C5): the `prev_tokens` window. -/
def specPT (tokens : List (String × List String)) (input_tokens : List String)
    (token_i : Nat) (c : RuleConstraints) : Bool :=
  match c.prev_tokens with
  | none => true
  | some cv =>
      specWindowOK tokens input_tokens ((token_i : Int) - 1 - cv.length) cv false

/-- Modelled from the spec (C5): the `prev_classes` window. -/
def specPC (tokens : List (String × List String)) (input_tokens : List String)
    (token_i : Nat) (c : RuleConstraints) : Bool :=
  match c.prev_classes with
  | none => true
  | some cv =>
      specWindowOK tokens input_tokens
        ((token_i : Int) - 1 - ((c.prev_tokens.getD []).length) - cv.length) cv true

/-- Modelled from the spec (C5): the `next_tokens` window. -/
def specNT (tokens : List (String × List String)) (input_tokens : List String)
    (token_i : Nat) (c : RuleConstraints) : Bool :=
  match c.next_tokens with
  | none => true
  | some cv => specWindowOK tokens input_tokens (token_i : Int) cv false

/-- Modelled from the spec (C5): the `next_classes` window. -/
def specNC (tokens : List (String × List String)) (input_tokens : List String)
    (token_i : Nat) (c : RuleConstraints) : Bool :=
  match c.next_classes with
  | none => true
  | some cv =>
      specWindowOK tokens input_tokens
        ((token_i : Int) + ((c.next_tokens.getD []).length)) cv true

/-- Modelled from the spec (C5): all four windows hold. -/
def specMatchConstraints (tokens : List (String × List String))
    (input_tokens : List String) (token_i : Nat) (c : RuleConstraints) : Bool :=
  specPT tokens input_tokens token_i c && specPC tokens input_tokens token_i c &&
  specNT tokens input_tokens token_i c && specNC tokens input_tokens token_i c

/-- A concrete rule edge with a `prev_tokens` constraint. -/
def cexEdge : PEdge :=
  { token := none, cost := some (-200),
    constraints := some ⟨none, some ["a"], none, none⟩ }

/- ### On-match boundary (`graphparser.py:262` and `initialize.py:100`) -/

/-- `self._onmatch_rules_lookup[curr_t][prev_t]` (`KeyError` on unknown
tokens). -/
def onmatchLookupAt (lookup : List (String × List (String × List OnMatchRule)))
    (curr_t prev_t : String) : Except PyErr (List OnMatchRule) :=
  match alistGet? lookup curr_t with
  | none => Except.error PyErr.keyError
  | some inner =>
      match alistGet? inner prev_t with
      | none => Except.error PyErr.keyError
      | some rules => Except.ok rules

/-- The candidate loop at a parse boundary: test each candidate's full
`prev_classes` backward and `next_classes` forward; emit the first that
fits (`break` after the first hit). -/
def onmatchFirst (tokens : List (String × List String))
    (input_tokens : List String) (token_i : Nat) :
    List OnMatchRule → Except PyErr (Option String)
  | [] => Except.ok none
  | onmatch :: rest => do
      let b1 ← matchTokens tokens input_tokens
        ((token_i : Int) - onmatch.prev_classes.length) onmatch.prev_classes
        true false true
      if b1 then
        let b2 ← matchTokens tokens input_tokens (token_i : Int)
          onmatch.next_classes false true true
        if b2 then return (some onmatch.production)
        else onmatchFirst tokens input_tokens token_i rest
      else onmatchFirst tokens input_tokens token_i rest

/-- The on-match step of `GraphParser.parse` at the boundary `token_i`
(`prev_t = tokens[token_i-1]`, `curr_t = tokens[token_i]`). -/
def onmatchProductionAt (gp : GraphParser) (input_tokens : List String)
    (token_i : Nat) : Except PyErr (Option String) := do
  let prev_t ← pyIndex input_tokens ((token_i : Int) - 1)
  let curr_t ← pyIndex input_tokens (token_i : Int)
  let rules ← onmatchLookupAt gp.onmatch_rules_lookup curr_t prev_t
  onmatchFirst gp.tokens input_tokens token_i rules

/-- Modelled from the spec (C6): an `OnMatchRule` fits a boundary when its
full `prev_classes` window matches backward from the boundary and its
full `next_classes` window matches forward from it. -/
def specOnmatchMatches (tokens : List (String × List String))
    (input_tokens : List String) (token_i : Nat) (r : OnMatchRule) : Bool :=
  specWindowOK tokens input_tokens ((token_i : Int) - r.prev_classes.length)
    r.prev_classes true &&
  specWindowOK tokens input_tokens (token_i : Int) r.next_classes true

/-- Tokens for the on-match witness parser. -/
def omTokens : List (String × List String) :=
  [("a", ["c1"]), ("b", ["c2"]), (" ", ["wb"])]

/-- The on-match rule `<c1> + <c2>` producing a comma. -/
def omRule : OnMatchRule := ⟨["c1"], ["c2"], ","⟩

/-- Raw rules for the on-match witness parser. -/
def omRawRules : List RawRule :=
  [⟨"A", none, none, ["a"], none, none⟩,
   ⟨"B", none, none, ["b"], none, none⟩,
   ⟨"S", none, none, [" "], none, none⟩]

/- ### Rule matching and parsing (`graphparser.py:160` and `graphparser.py:233`) -/

/-- The `for dest_key in target_edges` loop of `_match_at`: either returns
a rule key (`Sum.inl`) or the stack extended with deferred token edges
(`Sum.inr`).  Pushed items (`stack.append`) go to the head (deque right
end = stack top). -/
def matchAtEdges (tokens : List (String × List String)) (graph : PGraph)
    (input_tokens : List String) (node_key token_i : Nat)
    (stack : List (Nat × Nat)) : List Nat → Except PyErr (Sum Nat (List (Nat × Nat)))
  | [] => Except.ok (Sum.inr stack)
  | dest_key :: rest =>
      -- `graph.edge[node_key]` raises KeyError when the node has no edges
      if (graph.edges.find? (fun e => e.1.1 == node_key)).isNone then
        Except.error PyErr.keyError
      else
        let target_edge := graph.edge? node_key dest_key
        if dest_key ≠ 0 then
          match target_edge with
          | none => Except.error PyErr.attributeError
          | some e =>
              match matchConstraints tokens input_tokens e token_i with
              | Except.error err => Except.error err
              | Except.ok b =>
                  if b then
                    if (e.token.getD "") ≠ "" then
                      matchAtEdges tokens graph input_tokens node_key token_i
                        ((dest_key, token_i + 1) :: stack) rest
                    else
                      match graph.node? dest_key with
                      | none => Except.error PyErr.keyError
                      | some rule_node =>
                          if rule_node.accepting then
                            match rule_node.rule_key with
                            | none => Except.error PyErr.keyError
                            | some rk => Except.ok (Sum.inl rk)
                          else Except.error PyErr.assertionError
                  else matchAtEdges tokens graph input_tokens node_key token_i stack rest
        else matchAtEdges tokens graph input_tokens node_key token_i stack rest

/-- The `while stack` loop of `_match_at` (LIFO; fuel-bounded).  The final
`ValueError` reports the last popped `token_i`. -/
def matchAtLoop (tokens : List (String × List String)) (graph : PGraph)
    (input_tokens : List String) :
    Nat → List (Nat × Nat) → Nat → Except PyErr Nat
  | 0, _, _ => Except.error PyErr.outOfFuel
  | _ + 1, [], last_token_i => Except.error (PyErr.valueError last_token_i)
  | fuel + 1, (node_key, token_i) :: rest, _ =>
      if h : input_tokens.length ≤ token_i then Except.error PyErr.assertionError
      else
        let target_token := input_tokens.get ⟨token_i, by omega⟩
        match graph.node? node_key with
        | none => Except.error PyErr.keyError
        | some curr_node =>
            if curr_node.accepting then Except.error PyErr.assertionError
            else
              let target_edges :=
                match alistGet? curr_node.ordered_children target_token with
                | some es => some es
                | none => alistGet? curr_node.ordered_children "__rules__"
              match target_edges with
              | none => Except.error PyErr.typeError
              | some es =>
                  match matchAtEdges tokens graph input_tokens node_key token_i rest es with
                  | Except.error err => Except.error err
                  | Except.ok (Sum.inl rk) => Except.ok rk
                  | Except.ok (Sum.inr newStack) =>
                      matchAtLoop tokens graph input_tokens fuel newStack token_i

/-- `GraphParser._match_at(start_token_i)`. -/
def matchAt (tokens : List (String × List String)) (graph : PGraph)
    (input_tokens : List String) (start_token_i : Nat) (fuel : Nat) :
    Except PyErr Nat :=
  if start_token_i = 0 then Except.error PyErr.assertionError
  else matchAtLoop tokens graph input_tokens fuel [(0, start_token_i)] start_token_i

/-- The `while token_i < len(tokens)-1` loop of `GraphParser.parse`. -/
def parseLoop (gp : GraphParser) (input_tokens : List String) :
    Nat → Nat → String → Except PyErr String
  | 0, _, _ => Except.error PyErr.outOfFuel
  | fuel + 1, token_i, output =>
      if token_i < input_tokens.length - 1 then
        match matchAt gp.tokens gp.graph input_tokens token_i (fuel + 1) with
        | Except.error e => Except.error e
        | Except.ok rule_key =>
            match gp.rules.get? rule_key with
            | none => Except.error PyErr.indexError
            | some rule =>
                match (if gp.onmatch_rules ≠ [] then
                    onmatchProductionAt gp input_tokens token_i
                  else Except.ok none) with
                | Except.error e => Except.error e
                | Except.ok om =>
                    parseLoop gp input_tokens fuel (token_i + rule.tokens.length)
                      (output ++ (om.getD "") ++ rule.production)
      else Except.ok output

/-- `GraphParser.parse(input)`: tokenize, store the token list in
`self._input_tokens`, then run the matching loop.  Returns both the
post-call parser state and the parse outcome. -/
def GraphParser.parse (gp : GraphParser) (input : String) (fuel : Nat) :
    GraphParser × Except PyErr String :=
  match gp.tokenize input with
  | Except.error e => (gp, Except.error e)
  | Except.ok tokens =>
      let gp' := { gp with input_tokens := some tokens }
      (gp', parseLoop gp' tokens fuel 1 "")

/- ### Scanner meter graphs (`src/urdubiometer/scanner/initialize.py`) -/

/-- Node of the scanner's `DirectedGraph` (graphtransliterator): a type
tag plus, on accepting nodes, the merged meter attributes (of which only
`meter_key` matters to the claims). -/
structure NNode where
  type : String
  meter_key : Option Nat
deriving DecidableEq, Repr

/-- The scanner's `DirectedGraph`: `node` is a dense list of attribute
records, `edge_list` the append-only list of (source, target) pairs. -/
structure NGraph where
  nodes : List NNode
  edgeList : List (Nat × Nat)
deriving DecidableEq, Repr

def NGraph.addNode (g : NGraph) (n : NNode) : Nat × NGraph :=
  (g.nodes.length, { g with nodes := g.nodes ++ [n] })

def NGraph.addEdge (g : NGraph) (s t : Nat) : NGraph :=
  { g with edgeList := g.edgeList ++ [(s, t)] }

/-- `children_of` via `edge_list` (duplicates preserved). -/
def childrenOfEdgeList (g : NGraph) (k : Nat) : List Nat :=
  (g.edgeList.filter (fun e => e.1 == k)).map (·.2)

/-- `parents_of` via `edge_list`. -/
def parentsOfEdgeList (g : NGraph) (k : Nat) : List Nat :=
  (g.edgeList.filter (fun e => e.2 == k)).map (·.1)

/-- First-occurrence deduplication (iteration order of the `edge[k]`
dict's keys). -/
def dedupFirstAux (seen : List Nat) : List Nat → List Nat
  | [] => []
  | x :: rest =>
      if seen.contains x then dedupFirstAux seen rest
      else x :: dedupFirstAux (x :: seen) rest

/-- `graph.edge.get(k, [])` keys: targets of `k`, first-insertion order,
deduplicated. -/
def NGraph.edgeChildren (g : NGraph) (k : Nat) : List Nat :=
  dedupFirstAux [] (childrenOfEdgeList g k)

/- #### Thompson construction (`_postfix_to_ndfa`, `initialize.py:161`) -/

/-- An NFA fragment: start state and dangling out-states. -/
structure Frag where
  start : Nat
  out : List Nat
deriving DecidableEq, Repr

/-- `state(node_type, out, out1)`: create a node and connect it to the
following nodes.  The source writes `for _ in out, out1: if _:
graph.add_edge(...)`, so a `None` target *and the node key 0* are
skipped. -/
def ndfaState (g : NGraph) (node_type : String) (out out1 : Option Nat) :
    Nat × NGraph :=
  let (k, g1) := g.addNode ⟨node_type, none⟩
  let g2 := match out with
    | some o => if o ≠ 0 then g1.addEdge k o else g1
    | none => g1
  let g3 := match out1 with
    | some o => if o ≠ 0 then g2.addEdge k o else g2
    | none => g2
  (k, g3)

/-- `patch(l, s)`: point every dangling out-state of `l` at `s`. -/
def ndfaPatch (g : NGraph) (l : List Nat) (s : Nat) : NGraph :=
  l.foldl (fun g o => g.addEdge o s) g

/-- One character of the postfix evaluation (`IndexError` models `pop()`
on an empty fragment stack; the stack head is the top). -/
def postfixStep (st : NGraph × List Frag) (c : Char) :
    Except PyErr (NGraph × List Frag) :=
  let (g, stack) := st
  if c = '.' then
    match stack with
    | e2 :: e1 :: rest =>
        Except.ok (ndfaPatch g e1.out e2.start, ⟨e1.start, e2.out⟩ :: rest)
    | _ => Except.error PyErr.indexError
  else if c = '|' then
    match stack with
    | e2 :: e1 :: rest =>
        let (s, g) := ndfaState g "Split" (some e1.start) (some e2.start)
        Except.ok (g, ⟨s, e1.out ++ e2.out⟩ :: rest)
    | _ => Except.error PyErr.indexError
  else if c = '?' then
    match stack with
    | e :: rest =>
        let (s, g) := ndfaState g "Split" (some e.start) none
        Except.ok (g, ⟨s, e.out ++ [s]⟩ :: rest)
    | _ => Except.error PyErr.indexError
  else if c = '*' then
    match stack with
    | e :: rest =>
        let (s, g) := ndfaState g "Split" (some e.start) none
        Except.ok (ndfaPatch g e.out s, ⟨s, [s]⟩ :: rest)
    | _ => Except.error PyErr.indexError
  else if c = '+' then
    match stack with
    | e :: rest =>
        let (s, g) := ndfaState g "Split" (some e.start) none
        Except.ok (ndfaPatch g e.out s, ⟨e.start, [s]⟩ :: rest)
    | _ => Except.error PyErr.indexError
  else
    let (s, g) := ndfaState g (String.singleton c) none none
    Except.ok (g, ⟨s, [s]⟩ :: stack)

/-- `_postfix_to_ndfa(postfix)`: evaluate the postfix, pop the top
fragment (leftovers are silently ignored), and patch its dangling
out-states to a fresh `Accepting` node. -/
def postfixToNdfa (pfx : List Char) : Except PyErr NGraph := do
  let (g, stack) ← pfx.foldlM postfixStep (⟨[], []⟩, [])
  match stack with
  | [] => Except.error PyErr.indexError
  | e :: _ =>
      let (matchstate, g) := ndfaState g "Accepting" none none
      Except.ok (ndfaPatch g e.out matchstate)

/- #### Infix to postfix (`_regex_to_postfix`, `initialize.py:70`) -/

/-- The conversion state: pending alternations and atoms, the
parenthesis stack, and the emitted postfix. -/
structure RPState where
  nalt : Nat
  natom : Nat
  paren : List (Nat × Nat)
  dst : List Char
deriving DecidableEq, Repr

/-- One character of `_regex_to_postfix` (all raises map to a
`ValueError`). -/
def rpStep (st : RPState) (c : Char) : Except PyErr RPState :=
  if c = '(' then
    let (natom', dst') :=
      if st.natom > 1 then (st.natom - 1, st.dst ++ ['.']) else (st.natom, st.dst)
    Except.ok ⟨0, 0, (st.nalt, natom') :: st.paren, dst'⟩
  else if c = '|' then
    if st.natom = 0 then Except.error (PyErr.valueError 0)
    else Except.ok ⟨st.nalt + 1, 0, st.paren, st.dst ++ List.replicate (st.natom - 1) '.'⟩
  else if c = ')' then
    match st.paren with
    | [] => Except.error (PyErr.valueError 0)
    | (nalt0, natom0) :: prest =>
        if st.natom = 0 then Except.error (PyErr.valueError 0)
        else
          Except.ok ⟨nalt0, natom0 + 1, prest,
            st.dst ++ List.replicate (st.natom - 1) '.' ++ List.replicate st.nalt '|'⟩
  else if c = '*' ∨ c = '+' ∨ c = '?' then
    if st.natom = 0 then Except.error (PyErr.valueError 0)
    else Except.ok ⟨st.nalt, st.natom, st.paren, st.dst ++ [c]⟩
  else
    let (natom', dst') :=
      if st.natom > 1 then (st.natom - 1, st.dst ++ ['.']) else (st.natom, st.dst)
    Except.ok ⟨st.nalt, natom' + 1, st.paren, dst' ++ [c]⟩

/-- The final `while nalt > 0: dst.append('|'*nalt); nalt -= 1` loop:
each iteration appends a *string* of `nalt` bars. -/
def finalBars : Nat → List Char
  | 0 => []
  | n + 1 => List.replicate (n + 1) '|' ++ finalBars n

/-- `_regex_to_postfix(regex)`.  (The final `natom -= 1` can reach `-1`
in Python; both `-1` and `0` leave the dot loop idle, so `Nat`
subtraction is faithful.) -/
def regexToPostfix (regex : String) : Except PyErr (List Char) := do
  if regex.length = 0 then Except.error (PyErr.valueError 0)
  else do
    let st ← regex.toList.foldlM rpStep ⟨0, 0, [], []⟩
    Except.ok (st.dst ++ List.replicate (st.natom - 1) '.' ++ finalBars st.nalt)

/- #### NDFA minimisation (`_minimize_ndfa`, `initialize.py:287`) -/

/-- Build the new graph without `Split` nodes and the old→new key map. -/
def genNewGraphAndMappings (ndfa : NGraph) : NGraph × List (Nat × Nat) :=
  ndfa.nodes.enum.foldl (fun (acc : NGraph × List (Nat × Nat)) p =>
    if p.2.type = "Split" then acc
    else
      let (k, g) := acc.1.addNode p.2
      (g, acc.2 ++ [(p.1, k)])) (⟨[], []⟩, [])

/-- Natural-number association lookup. -/
def lookupNat (l : List (Nat × Nat)) (k : Nat) : Option Nat :=
  (l.find? (fun p => p.1 == k)).map (·.2)

/-- The inner search of `_minimize_ndfa`: walk through `Split` nodes to
non-`Split` children and add the corresponding edges (the deque is used
at its left end: `popleft` and `extendleft(reversed(children))`, i.e.
`children ++ stack`).  The loop has no visited set, so `Split` cycles do
not terminate; fuel models this. -/
def minimizeDfs (ndfa : NGraph) (mapping : List (Nat × Nat)) (node_key : Nat) :
    Nat → List Nat → NGraph → Except PyErr NGraph
  | 0, _, _ => Except.error PyErr.outOfFuel
  | _ + 1, [], g => Except.ok g
  | fuel + 1, child_key :: stack, g =>
      if (ndfa.nodes.get? child_key).elim false (fun n => n.type = "Split") then
        minimizeDfs ndfa mapping node_key fuel
          (childrenOfEdgeList ndfa child_key ++ stack) g
      else
        match lookupNat mapping node_key, lookupNat mapping child_key with
        | some mu, some mv =>
            if (mu, mv) ∈ g.edgeList then
              minimizeDfs ndfa mapping node_key fuel stack g
            else
              minimizeDfs ndfa mapping node_key fuel stack (g.addEdge mu mv)
        | _, _ => Except.error PyErr.keyError

/-- `_minimize_ndfa(ndfa)`. -/
def minimizeNdfa (ndfa : NGraph) (fuel : Nat) : Except PyErr NGraph :=
  let init := genNewGraphAndMappings ndfa
  ndfa.nodes.enum.foldlM (fun g p =>
    if p.2.type = "Split" then Except.ok g
    else minimizeDfs ndfa init.2 p.1 fuel (childrenOfEdgeList ndfa p.1) g) init.1

/-- `_ndfa_graph_of_meter(regex)`: prepend the sentinel root by building
`0(regex)`. -/
def ndfaGraphOfMeter (regex : String) : Except PyErr NGraph := do
  let p ← regexToPostfix ("0(" ++ regex ++ ")")
  postfixToNdfa p

/-- `_minimized_graph_of_meter(regex)`. -/
def minimizedGraphOfMeter (regex : String) (fuel : Nat) : Except PyErr NGraph := do
  let n ← ndfaGraphOfMeter regex
  minimizeNdfa n fuel

/- #### Merging meters (`_add_subgraph_to_graph`, `initialize.py:411`) -/

/-- BFS levels (`levels_of`): queue, marked set, level map.  The BFS
always terminates (each node is marked once); the caller passes
`nodes.length + 1` fuel, which always suffices. -/
def levelsOfLoop (g : NGraph) :
    Nat → List Nat → List Nat → List (Nat × Nat) → Except PyErr (List (Nat × Nat))
  | 0, [], _, level => Except.ok level
  | 0, _ :: _, _, _ => Except.error PyErr.outOfFuel
  | _ + 1, [], _, level => Except.ok level
  | fuel + 1, node_key :: qrest, marked, level =>
      match lookupNat level node_key with
      | none => Except.error PyErr.keyError
      | some lvl =>
          let step := (g.edgeChildren node_key).foldl
            (fun (acc : List Nat × List Nat × List (Nat × Nat)) child =>
              if acc.2.1.contains child then acc
              else (acc.1 ++ [child], child :: acc.2.1, acc.2.2 ++ [(child, lvl + 1)]))
            (qrest, marked, level)
          levelsOfLoop g fuel step.1 step.2.1 step.2.2

/-- `levels_of(graph)`: levels of each node reachable from the root 0. -/
def levelsOf (g : NGraph) (fuel : Nat) : Except PyErr (List (Nat × Nat)) :=
  levelsOfLoop g fuel [0] [0] [(0, 0)]

/-- The parent loop of `contains_cycle`. -/
def containsCycleLoop (level : List (Nat × Nat)) (node_key : Nat) :
    List Nat → Except PyErr Bool
  | [] => Except.ok false
  | p :: rest =>
      match lookupNat level p, lookupNat level node_key with
      | some lp, some ln =>
          if lp ≥ ln then Except.ok true
          else containsCycleLoop level node_key rest
      | _, _ => Except.error PyErr.keyError

/-- `contains_cycle(node_key)`: some incoming edge comes from a node at
the same or greater BFS level. -/
def containsCycle (g : NGraph) (level : List (Nat × Nat)) (node_key : Nat) :
    Except PyErr Bool :=
  containsCycleLoop level node_key (parentsOfEdgeList g node_key)

/-- The child loop of `child_of_type`. -/
def childOfTypeLoop (g : NGraph) (level : List (Nat × Nat)) (child_type : String) :
    List Nat → Except PyErr (Option Nat)
  | [] => Except.ok none
  | ck :: rest => do
      if (g.nodes.get? ck).elim false (fun n => n.type = child_type) then
        let cyc ← containsCycle g level ck
        if cyc = false then Except.ok (some ck)
        else childOfTypeLoop g level child_type rest
      else childOfTypeLoop g level child_type rest

/-- `child_of_type(graph, node_key, child_type)`: first child of the给
type that does not contain a cycle.  NOTE: the source applies this to
*any* child type, including `Accepting`. -/
def childOfType (g : NGraph) (node_key : Nat) (child_type : String) :
    Except PyErr (Option Nat) := do
  let level ← levelsOf g (g.nodes.length + 1)
  childOfTypeLoop g level child_type (childrenOfEdgeList g node_key)

/-- State of the merge BFS of `_add_subgraph_to_graph`. -/
structure MergeState where
  new_graph : NGraph
  queue : List (Nat × Nat × List Nat)
  node_mappings : List (Nat × Nat)
  accepting_node_key : Option Nat
deriving Repr

/-- Process one child in the merge BFS (`for child_key in children`). -/
def addSubgraphChild (graph : NGraph) (accepting_attr : Option Nat)
    (level : List (Nat × Nat)) (new_node_key : Nat) (visited : List Nat)
    (st : MergeState) (child_key : Nat) : Except PyErr MergeState := do
  match graph.nodes.get? child_key with
  | none => Except.error PyErr.keyError
  | some child_node => do
      let child_type := child_node.type
      let cyc ← containsCycle graph level child_key
      -- `if equivalent:` and `if not matching_child_key:` are truthiness
      -- tests: node key 0 behaves like `None`.
      let early : Option Nat :=
        if cyc then
          match lookupNat st.node_mappings child_key with
          | some k => if k ≠ 0 then some k else none
          | none => none
        else none
      match early with
      | some k =>
          -- `new_graph.add_edge(new_node_key, equivalent); continue`
          return { st with new_graph := st.new_graph.addEdge new_node_key k }
      | none => do
          let m1 ←
            if cyc then pure (none : Option Nat)
            else
              match lookupNat st.node_mappings child_key with
              | some k =>
                  if k ≠ 0 then pure (some k)
                  else childOfType st.new_graph new_node_key child_type
              | none => childOfType st.new_graph new_node_key child_type
          let (matching, st') ←
            if (m1.getD 0) = 0 then
              if child_type = "Accepting" ∧ st.accepting_node_key.isSome then
                pure (st.accepting_node_key.getD 0, st)
              else do
                let node_data :=
                  if child_type = "Accepting" ∧ accepting_attr.isSome then
                    { child_node with meter_key := accepting_attr }
                  else child_node
                let (k, g') := st.new_graph.addNode node_data
                let acc' :=
                  if child_type = "Accepting" then some k else st.accepting_node_key
                let st2 : MergeState :=
                  { st with
                    new_graph := g'
                    node_mappings := st.node_mappings ++ [(child_key, k)]
                    accepting_node_key := acc' }
                pure (k, st2)
            else
              pure (m1.getD 0, st)
          let g'' :=
            if (new_node_key, matching) ∈ st'.new_graph.edgeList then st'.new_graph
            else st'.new_graph.addEdge new_node_key matching
          let stFinal : MergeState :=
            { st' with
              new_graph := g''
              queue := st'.queue ++ [(child_key, matching, visited)] }
          return stFinal

/-- The `while queue` loop of `_add_subgraph_to_graph`. -/
def addSubgraphLoop (graph : NGraph) (accepting_attr : Option Nat)
    (level : List (Nat × Nat)) : Nat → MergeState → Except PyErr NGraph
  | 0, _ => Except.error PyErr.outOfFuel
  | fuel + 1, st =>
      match st.queue with
      | [] => Except.ok st.new_graph
      | (node_key, new_node_key, visited) :: qrest => do
          if visited.contains node_key then Except.error PyErr.assertionError
          else
            let visited' := node_key :: visited
            let st' ← (childrenOfEdgeList graph node_key).foldlM
              (addSubgraphChild graph accepting_attr level new_node_key visited')
              { st with queue := qrest }
            addSubgraphLoop graph accepting_attr level fuel st'

/-- `_add_subgraph_to_graph(graph, new_graph, accepting_attr)` (of the
meter attributes only `meter_key` is modelled). -/
def addSubgraphToGraph (graph new_graph : NGraph) (accepting_attr : Option Nat)
    (fuel : Nat) : Except PyErr NGraph := do
  let level ← levelsOf graph (graph.nodes.length + 1)
  let ng :=
    if new_graph.nodes.length = 0 then (new_graph.addNode ⟨"0", none⟩).2
    else new_graph
  addSubgraphLoop graph accepting_attr level fuel
    ⟨ng, [(0, 0, [])], [(0, 0)], none⟩

/-- `_meters_graph_of(meters_list)`: merge every meter (enumerated;
`meter_key = i`) into one translation graph. -/
def metersGraphOf (regexes : List String) (fuel : Nat) : Except PyErr NGraph :=
  regexes.enum.foldlM (fun mg p => do
      let subgraph ← minimizedGraphOfMeter p.2 fuel
      addSubgraphToGraph subgraph mg (some p.1) fuel)
    ⟨[], []⟩

/-- The translation graph the code builds for the meters list
`[{regex_pattern: "="}, {regex_pattern: "="}]`. -/
def sharedAcceptingGraph : NGraph :=
  ⟨[⟨"0", none⟩, ⟨"=", none⟩, ⟨"Accepting", some 0⟩], [(0, 1), (1, 2)]⟩

/- ### `Scanner.scan` (`src/urdubiometer/scanner/scanner.py:102-259`)

The long/short parsers are external `graphtransliterator` objects; the
scan loop only calls `parser.match_at(token_i, tokens, match_all=True)`
and reads `parser.rules[rule_key].tokens/.production`, so a parser is
embedded as a match function together with its rule list.  The
transcription step (`transliterate`, `tokenize`) happens before the loop;
its results (`transcription_tokens`, `tokens`) are passed in directly. -/

/-- The `rule_found` field common to both match variants. -/
def MatchData.rule_found : MatchData → String
  | .unit m => m.rule_found
  | .node m => m.rule_found

/-- The slice of a parser rule the scan loop reads. -/
structure ScanRule where
  tokens : List String
  production : String
deriving DecidableEq, Repr

/-- A metrical-unit parser, as seen by `Scanner.scan`. -/
structure SParser where
  match_at : Nat → List String → List Nat
  rules : List ScanRule

/-- `ScanIteration` (namedtuple, `scanner/types.py`). -/
structure ScanIteration where
  node_key : Nat
  parent_key : Nat
  token_i : Nat
  matches' : List MatchData
  matched_so_far : String

/-- The fields of `Scanner` the scan loop reads (`longP`/`shortP`/
`constrainedP` embed `_long_parser`/`_short_parser`/`_constrained_parsers`). -/
structure Scanner where
  longP : SParser
  shortP : SParser
  constrainedP : List (String × List (String × List (String × SParser)))
  translation_graph : NGraph
  find_feet : Option (String → String)
  post_scan_filter : Option (List ScanResult → List ScanResult)

/-- Left-to-right effectful map over a list, first error wins (the
semantics of a Python `for` loop building a list). -/
def mapE (f : α → Except PyErr β) : List α → Except PyErr (List β)
  | [] => Except.ok []
  | x :: xs =>
      match f x with
      | Except.error e => Except.error e
      | Except.ok y =>
          match mapE f xs with
          | Except.error e => Except.error e
          | Except.ok ys => Except.ok (y :: ys)

/-- Triple-nested constrained-parser lookup; a missing key at any level
is the `KeyError` the code catches (returning `None`). -/
def lookup3 (cp : List (String × List (String × List (String × SParser))))
    (a b c : String) : Option SParser :=
  (alistGet? cp a).bind fun m1 => (alistGet? m1 b).bind fun m2 => alistGet? m2 c

/-- `special_parser` (`scanner.py:125-140`): `None` when there are no
constrained parsers or no matches yet; otherwise a nested lookup keyed by
parent type, node type and (except for `_`→`=`) the last match's
production, with `KeyError` mapped to `None`. -/
def Scanner.specialParserOf (sc : Scanner) (parent_key : Nat)
    (node_type : String) (ms : List MatchData) : Except PyErr (Option SParser) :=
  if sc.constrainedP.isEmpty ∨ ms.length = 0 then Except.ok none
  else
    match sc.translation_graph.nodes.get? parent_key with
    | none => Except.error PyErr.keyError
    | some pn =>
        if pn.type = "_" ∧ node_type = "=" then
          Except.ok (lookup3 sc.constrainedP pn.type node_type "*")
        else
          Except.ok (lookup3 sc.constrainedP pn.type node_type
            ((ms.getLast?.map MatchData.rule_found).getD ""))

/-- `itertools.chain.from_iterable(transcription_tokens[i] for i in
range(token_i, token_i + len(rule.tokens)))`, with Python's `IndexError`
on an out-of-range index. -/
def origTokensOf (ttoks : List (List String)) (start len : Nat) :
    Except PyErr (List String) :=
  match mapE (fun j =>
      match ttoks.get? (start + j) with
      | none => Except.error PyErr.indexError
      | some l => Except.ok l) (List.range len) with
  | Except.error e => Except.error e
  | Except.ok ls => Except.ok ls.join

/-- The per-match record pushed with each child: a `NodeMatch` when
`graph_details` is set, else a `UnitMatch` (`scanner.py:226-243`). -/
def mkMatchData (gd : Bool) (node_type : String) (rule : ScanRule)
    (orig : List String) (parent_key node_key token_i : Nat) : MatchData :=
  if gd then
    MatchData.node ⟨node_type, rule.tokens, node_key, orig, rule.production,
      token_i, parent_key⟩
  else
    MatchData.unit ⟨node_type, rule.production, orig⟩

/-- The iteration pushed for one (rule, child) pair (`scanner.py:247-255`). -/
def pushOfChild (ttoks : List (List String)) (gd : Bool) (it : ScanIteration)
    (node_type : String) (rule : ScanRule) (ck : Nat) :
    Except PyErr ScanIteration :=
  match origTokensOf ttoks it.token_i rule.tokens.length with
  | Except.error e => Except.error e
  | Except.ok orig =>
      Except.ok (ScanIteration.mk ck it.node_key
        (it.token_i + rule.tokens.length)
        (it.matches' ++ [mkMatchData gd node_type rule orig
          it.parent_key it.node_key it.token_i])
        (it.matched_so_far ++ node_type))

/-- The iterations pushed for one matched rule key: `parser.rules[rule_key]`
(Python `IndexError` when out of range) then one push per child. -/
def pushOfRule (ttoks : List (List String)) (gd : Bool) (parser : SParser)
    (children : List Nat) (it : ScanIteration) (node_type : String)
    (rk : Nat) : Except PyErr (List ScanIteration) :=
  match parser.rules.get? rk with
  | none => Except.error PyErr.indexError
  | some rule => mapE (pushOfChild ttoks gd it node_type rule) children

/-- All iterations pushed by the double loop `for rule_key in
reversed(rules_matched): for child_key in children: stack.appendleft(...)`.
`appendleft` reverses the push order at the front of the deque. -/
def pushesOf (ttoks : List (List String)) (gd : Bool) (parser : SParser)
    (children : List Nat) (it : ScanIteration) (node_type : String)
    (rules_matched : List Nat) : Except PyErr (List ScanIteration) :=
  match mapE (pushOfRule ttoks gd parser children it node_type)
      rules_matched.reverse with
  | Except.error e => Except.error e
  | Except.ok ls => Except.ok ls.join.reverse

/-- One iteration of the scan `while` loop, on the popped `ScanIteration`:
returns an optional completed `ScanResult`, the iterations to push, and
the (Python-local, loop-surviving) `parser` variable.  Accepting nodes
complete a scan only at the final whitespace token (`token_i ==
len(tokens) - 1`); with `show_feet`, an unset `find_feet` is `None` and
calling it raises `TypeError`.  Non-accepting nodes select the long or
short parser (or a constrained one); a node type outside `=`, `-`, `_`
leaves `parser` at its previous value, and an unbound `parser` raises. -/
def scanStep (sc : Scanner) (ttoks : List (List String)) (tokens : List String)
    (gd sf : Bool) (p0 : Option SParser) (it : ScanIteration) :
    Except PyErr (Option ScanResult × List ScanIteration × Option SParser) :=
  match sc.translation_graph.nodes.get? it.node_key with
  | none => Except.error PyErr.keyError
  | some node =>
      if node.type = "Accepting" then
        if (it.token_i : Int) = (tokens.length : Int) - 1 then
          match (if sf then
                  match sc.find_feet with
                  | none => Except.error PyErr.typeError
                  | some ff => Except.ok (ff it.matched_so_far)
                 else Except.ok it.matched_so_far) with
          | Except.error e => Except.error e
          | Except.ok msf =>
              Except.ok (some (ScanResult.mk msf it.matches' node.meter_key),
                [], p0)
        else Except.ok (none, [], p0)
      else
        match (if node.type = "=" then
                match sc.specialParserOf it.parent_key node.type it.matches' with
                | Except.error e => Except.error e
                | Except.ok sp => Except.ok (some (sp.getD sc.longP))
               else if node.type = "-" ∨ node.type = "_" then
                match sc.specialParserOf it.parent_key node.type it.matches' with
                | Except.error e => Except.error e
                | Except.ok sp => Except.ok (some (sp.getD sc.shortP))
               else Except.ok p0) with
        | Except.error e => Except.error e
        | Except.ok none => Except.error PyErr.typeError
        | Except.ok (some parser) =>
            match parser.match_at it.token_i tokens with
            | [] => Except.ok (none, [], some parser)
            | rm =>
                if (sc.translation_graph.edgeChildren it.node_key).isEmpty then
                  Except.error PyErr.keyError
                else
                  match pushesOf ttoks gd parser
                      (sc.translation_graph.edgeChildren it.node_key)
                      it node.type rm with
                  | Except.error e => Except.error e
                  | Except.ok pushed => Except.ok (none, pushed, some parser)

/-- The scan `while` loop (`scanner.py:165-255`), with fuel:
`continue_processing` goes false only when `first_only` is set and a scan
has just completed. -/
def scanLoop (sc : Scanner) (ttoks : List (List String)) (tokens : List String)
    (fo gd sf : Bool) :
    Nat → List ScanResult → List ScanIteration → Option SParser →
      Except PyErr (List ScanResult)
  | 0, _, _, _ => Except.error PyErr.outOfFuel
  | fuel + 1, completed, stack, p0 =>
      match stack with
      | [] => Except.ok completed
      | it :: rest =>
          match scanStep sc ttoks tokens gd sf p0 it with
          | Except.error e => Except.error e
          | Except.ok (resOpt, pushes, p1) =>
              if fo ∧ resOpt.isSome then Except.ok (completed ++ resOpt.toList)
              else scanLoop sc ttoks tokens fo gd sf fuel
                (completed ++ resOpt.toList) (pushes ++ rest) p1

/-- `Scanner.scan`, from the stack initialisation on (`scanner.py:156-259`):
the stack starts with the root's children (`graph.edge[0]`, `KeyError`
when absent) and the post-scan filter runs only on a nonempty result. -/
def Scanner.scan (sc : Scanner) (ttoks : List (List String))
    (tokens : List String) (fo gd sf : Bool) (fuel : Nat) :
    Except PyErr (List ScanResult) :=
  if (sc.translation_graph.edgeChildren 0).isEmpty then
    Except.error PyErr.keyError
  else
    match scanLoop sc ttoks tokens fo gd sf fuel []
        (((sc.translation_graph.edgeChildren 0).map
          (fun k => ScanIteration.mk k 0 0 [] "")).reverse) none with
    | Except.error e => Except.error e
    | Except.ok completed =>
        if 0 < completed.length then
          match sc.post_scan_filter with
          | some f => Except.ok (f completed)
          | none => Except.ok completed
        else Except.ok completed

/-- Concatenated `type` fields of a match list, as characters. -/
def typesData (ms : List MatchData) : List Char :=
  (ms.map (fun m => m.type.data)).join

/-- Concatenated `type` fields of a match list, as a string. -/
def concatTypes (ms : List MatchData) : String :=
  String.mk (typesData ms)

/-- A string with all foot-separator characters removed. -/
def removeSlash (s : String) : String :=
  String.mk (s.data.filter (fun c => c != '/'))

/-- Loop invariant for a pending scan iteration: `matched_so_far` is the
concatenation of the match types, and contains no foot separator. -/
def IterOK (it : ScanIteration) : Prop :=
  it.matched_so_far.data = typesData it.matches' ∧ '/' ∉ it.matched_so_far.data

/-- A one-rule long parser matching token 0 only. -/
def wParser : SParser :=
  ⟨fun i _ => if i = 0 then [0] else [], [⟨["a"], "A"⟩]⟩

/-- A scanner over the merged graph of the single meter `"="`, with no
find-feet function and no post-scan filter. -/
def wScanner : Scanner :=
  ⟨wParser, wParser, [],
    ⟨[⟨"0", none⟩, ⟨"=", none⟩, ⟨"Accepting", some 0⟩], [(0, 1), (1, 2)]⟩,
    none, none⟩

/-- The single result of scanning the token list `["a", " "]`. -/
def wRes : ScanResult := ⟨"=", [MatchData.unit ⟨"=", "A", ["x"]⟩], some 0⟩

/- ### C8: reachability in a scanner graph -/

/-- Reachability along `edge_list` edges (the claim's "reachable from the
root"). -/
inductive NReach (g : NGraph) : Nat → Nat → Prop
  | refl (a : Nat) : NReach g a a
  | step {a b c : Nat} : NReach g a b → (b, c) ∈ g.edgeList → NReach g a c

/-- The minimised graph the code builds for the meter regex `"("` + `"="`:
a disconnected root. -/
def cexMeterGraph : NGraph :=
  ⟨[⟨"0", none⟩, ⟨"=", none⟩, ⟨"Accepting", none⟩], [(1, 2)]⟩

theorem pyIndex_nonneg (l : List α) (i : Int) (h0 : 0 ≤ i) (h1 : i.toNat < l.length) :
    pyIndex l i = Except.ok (l.get ⟨i.toNat, h1⟩) := by
  unfold pyIndex
  rw [dif_pos ⟨h0, h1⟩]

theorem lookupGroup_addToGroups_self (gs : List (Option Nat × List Nat))
    (k : Option Nat) (i : Nat) :
    lookupGroup (addToGroups gs k i) k = lookupGroup gs k ++ [i] := by
  induction gs with
  | nil => simp [addToGroups, lookupGroup]
  | cons g rest ih =>
      obtain ⟨k', is⟩ := g
      by_cases h : k' = k
      · simp [addToGroups, lookupGroup, h]
      · simp [addToGroups, lookupGroup, h, ih]

theorem lookupGroup_addToGroups_ne (gs : List (Option Nat × List Nat))
    (k : Option Nat) (i : Nat) (k₁ : Option Nat) (hne : k₁ ≠ k) :
    lookupGroup (addToGroups gs k i) k₁ = lookupGroup gs k₁ := by
  have hne' : k ≠ k₁ := fun h => hne h.symm
  induction gs with
  | nil => simp [addToGroups, lookupGroup, hne']
  | cons g rest ih =>
      obtain ⟨k', is⟩ := g
      by_cases h : k' = k
      · subst h
        simp [addToGroups, lookupGroup, hne']
      · simp only [addToGroups, h, if_false]
        by_cases h1 : k' = k₁ <;> simp [lookupGroup, h1, ih]

theorem keys_addToGroups (gs : List (Option Nat × List Nat)) (k : Option Nat) (i : Nat) :
    (addToGroups gs k i).map Prod.fst = gs.map Prod.fst ∨
    (addToGroups gs k i).map Prod.fst = gs.map Prod.fst ++ [k] := by
  induction gs with
  | nil => right; simp [addToGroups]
  | cons g rest ih =>
      obtain ⟨k', is⟩ := g
      by_cases h : k' = k
      · left; simp [addToGroups, h]
      · rcases ih with ih | ih
        · left; simp [addToGroups, h, ih]
        · right; simp [addToGroups, h, ih]

theorem nodup_keys_addToGroups (gs : List (Option Nat × List Nat))
    (k : Option Nat) (i : Nat) (h : (gs.map Prod.fst).Nodup) :
    ((addToGroups gs k i).map Prod.fst).Nodup := by
  induction gs with
  | nil => simp [addToGroups]
  | cons g rest ih =>
      obtain ⟨k', is⟩ := g
      simp only [List.map_cons, List.nodup_cons] at h
      by_cases hk : k' = k
      · rw [show addToGroups ((k', is) :: rest) k i = (k', is ++ [i]) :: rest from by
          simp [addToGroups, hk]]
        simpa [List.nodup_cons] using h
      · rw [show addToGroups ((k', is) :: rest) k i = (k', is) :: addToGroups rest k i from by
          simp [addToGroups, hk]]
        simp only [List.map_cons, List.nodup_cons]
        refine ⟨?_, ih h.2⟩
        intro hmem
        rcases keys_addToGroups rest k i with heq | heq
        · rw [heq] at hmem; exact h.1 hmem
        · rw [heq] at hmem
          rcases List.mem_append.mp hmem with hm | hm
          · exact h.1 hm
          · exact hk (by simpa using hm)

theorem mem_eq_lookupGroup (gs : List (Option Nat × List Nat))
    (h : (gs.map Prod.fst).Nodup) (g : Option Nat × List Nat) (hg : g ∈ gs) :
    g.2 = lookupGroup gs g.1 := by
  induction gs with
  | nil => cases hg
  | cons g' rest ih =>
      obtain ⟨k', is⟩ := g'
      simp only [List.map_cons, List.nodup_cons] at h
      rcases List.mem_cons.mp hg with rfl | hmem
      · simp [lookupGroup]
      · have hne : k' ≠ g.1 := by
          intro heq
          exact h.1 (heq ▸ List.mem_map_of_mem Prod.fst hmem)
        simp [lookupGroup, hne, ih h.2 hmem]

theorem lookupGroup_mem (gs : List (Option Nat × List Nat)) (k : Option Nat)
    (h : lookupGroup gs k ≠ []) : (k, lookupGroup gs k) ∈ gs := by
  induction gs with
  | nil => simp [lookupGroup] at h
  | cons g rest ih =>
      obtain ⟨k', is⟩ := g
      by_cases hk : k' = k
      · subst hk
        simp [lookupGroup]
      · simp only [lookupGroup, hk, if_false] at h ⊢
        exact List.mem_cons_of_mem _ (ih h)

theorem groupsOf_eq_foldl (scans : List ScanResult) :
    groupsOf scans = scans.enum.foldl groupStep [] := rfl

theorem lookupGroup_foldl (pairs : List (Nat × ScanResult))
    (gs0 : List (Option Nat × List Nat)) (k : Option Nat) :
    lookupGroup (pairs.foldl groupStep gs0) k =
      lookupGroup gs0 k ++
        (pairs.filter (fun p => decide (p.2.meter_key = k))).map Prod.fst := by
  induction pairs generalizing gs0 with
  | nil => simp
  | cons p rest ih =>
      rw [List.foldl_cons, ih]
      by_cases h : p.2.meter_key = k
      · rw [show groupStep gs0 p = addToGroups gs0 p.2.meter_key p.1 from rfl]
        rw [h, lookupGroup_addToGroups_self]
        simp [h]
      · rw [show groupStep gs0 p = addToGroups gs0 p.2.meter_key p.1 from rfl]
        rw [lookupGroup_addToGroups_ne _ _ _ _ (fun he => h he.symm)]
        simp [h]

theorem nodup_keys_foldl (pairs : List (Nat × ScanResult))
    (gs0 : List (Option Nat × List Nat)) (h : (gs0.map Prod.fst).Nodup) :
    ((pairs.foldl groupStep gs0).map Prod.fst).Nodup := by
  induction pairs generalizing gs0 with
  | nil => exact h
  | cons p rest ih =>
      exact ih _ (nodup_keys_addToGroups _ _ _ h)

theorem nodup_keys_groupsOf (scans : List ScanResult) :
    ((groupsOf scans).map Prod.fst).Nodup :=
  nodup_keys_foldl _ _ (by simp)

theorem lookupGroup_groupsOf (scans : List ScanResult) (k : Option Nat) :
    lookupGroup (groupsOf scans) k =
      (scans.enum.filter (fun p => decide (p.2.meter_key = k))).map Prod.fst := by
  rw [groupsOf_eq_foldl, lookupGroup_foldl]
  simp [lookupGroup]

theorem countP_reduceOption (w : List (Option α)) (p : α → Bool) :
    w.reduceOption.countP p =
      w.countP (fun o => (o.map p).getD false) := by
  induction w with
  | nil => rfl
  | cons o rest ih =>
      cases o with
      | none =>
          rw [List.reduceOption_cons_of_none, List.countP_cons]
          simpa using ih
      | some a =>
          rw [List.reduceOption_cons_of_some, List.countP_cons, List.countP_cons]
          simp [ih]

theorem countP_eq_length_filter_range (l : List α) (p : α → Bool) :
    l.countP p =
      ((List.range l.length).filter (fun j => ((l.get? j).map p).getD false)).length := by
  induction l with
  | nil => simp
  | cons a t ih =>
      have hfun : ((fun j => (((a :: t).get? j).map p).getD false) ∘ Nat.succ)
          = (fun j => ((t.get? j).map p).getD false) := funext (fun j => rfl)
      rw [List.countP_cons, List.length_cons, List.range_succ_eq_map, List.filter_cons,
        List.filter_map, hfun]
      simp only [List.get?_cons_zero, Option.map_some', Option.getD_some]
      by_cases hpa : p a
      · rw [ih]
        simp [hpa]
      · rw [ih]
        simp [hpa]

theorem NulledFrom.refl (w : List (Option ScanResult)) : NulledFrom w w :=
  ⟨rfl, fun _ => Or.inl rfl⟩

theorem NulledFrom.trans {w₁ w₂ w₃ : List (Option ScanResult)}
    (h₁ : NulledFrom w₁ w₂) (h₂ : NulledFrom w₂ w₃) : NulledFrom w₁ w₃ := by
  refine ⟨h₂.1.trans h₁.1, fun j => ?_⟩
  rcases h₂.2 j with h | h
  · rw [h]; exact h₁.2 j
  · exact Or.inr h

theorem NulledFrom.set_none {w : List (Option ScanResult)} (k : Nat) :
    NulledFrom w (w.set k none) := by
  refine ⟨List.length_set w k none, fun j => ?_⟩
  by_cases h : k = j
  · subst h
    rw [List.get?_set_eq]
    cases hw : w.get? k with
    | none => simp
    | some o => simp
  · rw [List.get?_set_ne _ _ h]
    exact Or.inl rfl

theorem nulledFrom_nullExcept (w : List (Option ScanResult))
    (keys : List Nat) (m : Nat) : NulledFrom w (nullExcept w keys m) := by
  rw [nullExcept]
  induction keys generalizing w with
  | nil => exact NulledFrom.refl w
  | cons k rest ih =>
      rw [List.foldl_cons]
      by_cases h : k ≠ m
      · rw [if_pos h]
        exact (NulledFrom.set_none k).trans (ih _)
      · rw [if_neg h]
        exact ih w

theorem nullExcept_nulled (w : List (Option ScanResult)) (keys : List Nat)
    (m : Nat) (j : Nat) (hj : j ∈ keys) (hne : j ≠ m) (hlt : j < w.length) :
    (nullExcept w keys m).get? j = some none := by
  rw [nullExcept]
  induction keys generalizing w with
  | nil => cases hj
  | cons k rest ih =>
      rw [List.foldl_cons]
      rcases List.mem_cons.mp hj with rfl | hmem
      · rw [if_pos hne]
        rcases (nulledFrom_nullExcept (w.set j none) rest m).2 j with h | h
        · rw [nullExcept] at h
          rw [h, List.get?_set_eq]
          cases hw : w.get? j with
          | none =>
              rw [List.get?_eq_none] at hw
              omega
          | some o => simp
        · rw [nullExcept] at h
          exact h
      · by_cases h : k ≠ m
        · rw [if_pos h]
          exact ih _ hmem (by simpa using hlt)
        · rw [if_neg h]
          exact ih _ hmem hlt

theorem filterGroup_ok (w w' : List (Option ScanResult)) (g : Option Nat × List Nat)
    (h : filterGroup w g = Except.ok w') :
    (g.2.length < 2 ∧ w' = w) ∨ ∃ m, w' = nullExcept w g.2 m := by
  rw [filterGroup] at h
  by_cases hlen : g.2.length < 2
  · rw [if_pos hlen] at h
    exact Or.inl ⟨hlen, (Except.ok.injEq _ _ ▸ h : w = w').symm⟩
  · rw [if_neg hlen] at h
    right
    split at h
    · cases h
    · cases h
    · exact ⟨_, ((Except.ok.injEq _ _ ▸ h : _ = w').symm)⟩

theorem foldlM_filterGroup_spec (groups : List (Option Nat × List Nat))
    (w0 final : List (Option ScanResult))
    (h : groups.foldlM filterGroup w0 = Except.ok final)
    (hkeys : ∀ g ∈ groups, ∀ j ∈ g.2, j < w0.length) :
    NulledFrom w0 final ∧
      ∀ g ∈ groups, 2 ≤ g.2.length →
        ∃ keep, ∀ j ∈ g.2, j ≠ keep → final.get? j = some none := by
  induction groups generalizing w0 with
  | nil =>
      simp only [List.foldlM_nil] at h
      obtain rfl : w0 = final := by
        simpa [pure, Except.pure] using h
      exact ⟨NulledFrom.refl _, by simp⟩
  | cons g rest ih =>
      rw [List.foldlM_cons] at h
      cases hg : filterGroup w0 g with
      | error e =>
          rw [hg] at h
          simp only [Bind.bind, Except.bind] at h
          cases h
      | ok w1 =>
          rw [hg] at h
          simp only [Bind.bind, Except.bind] at h
          have hn1 : NulledFrom w0 w1 := by
            rcases filterGroup_ok w0 w1 g hg with ⟨_, rfl⟩ | ⟨m, rfl⟩
            · exact NulledFrom.refl _
            · exact nulledFrom_nullExcept _ _ _
          have hkeys1 : ∀ g' ∈ rest, ∀ j ∈ g'.2, j < w1.length := by
            intro g' hg' j hj
            rw [hn1.1]
            exact hkeys g' (List.mem_cons_of_mem _ hg') j hj
          obtain ⟨hn2, hrest⟩ := ih w1 h hkeys1
          refine ⟨hn1.trans hn2, ?_⟩
          intro g' hg' hbig
          rcases List.mem_cons.mp hg' with rfl | hmem
          · rcases filterGroup_ok w0 w1 g' hg with ⟨hlt, _⟩ | ⟨m, rfl⟩
            · omega
            · refine ⟨m, fun j hj hne => ?_⟩
              have hnull : (nullExcept w0 g'.2 m).get? j = some none :=
                nullExcept_nulled w0 g'.2 m j hj hne
                  (hkeys g' (List.mem_cons_self _ _) j hj)
              rcases hn2.2 j with hh | hh
              · rw [hh, hnull]
              · exact hh
          · exact hrest g' hmem hbig

/- ### Characterisation of a meter's index group -/

theorem mem_lookupGroup_groupsOf (scans : List ScanResult) (k : Option Nat) (j : Nat)
    (hj : j ∈ lookupGroup (groupsOf scans) k) :
    ∃ r, scans.get? j = some r ∧ r.meter_key = k := by
  rw [lookupGroup_groupsOf] at hj
  obtain ⟨p, hp, rfl⟩ := List.mem_map.mp hj
  have hf := List.mem_filter.mp hp
  obtain ⟨hlt, heq⟩ := List.mem_enum hf.1
  refine ⟨p.2, ?_, by simpa using hf.2⟩
  rw [heq]
  rw [List.get?_eq_get hlt]
  simp

theorem lookupGroup_groupsOf_complete (scans : List ScanResult) (k : Option Nat)
    (j : Nat) (r : ScanResult) (h : scans.get? j = some r) (hk : r.meter_key = k) :
    j ∈ lookupGroup (groupsOf scans) k := by
  rw [lookupGroup_groupsOf]
  have hmem : (j, r) ∈ scans.enum := by
    apply List.get?_mem (n := j)
    rw [List.get?_enum, h]
    rfl
  refine List.mem_map.mpr ⟨(j, r), List.mem_filter.mpr ⟨hmem, by simpa using hk⟩, rfl⟩

theorem nodup_lookupGroup_groupsOf (scans : List ScanResult) (k : Option Nat) :
    (lookupGroup (groupsOf scans) k).Nodup := by
  rw [lookupGroup_groupsOf]
  have hsub : ((scans.enum.filter
      (fun p => decide (p.2.meter_key = k))).map Prod.fst).Sublist
      (scans.enum.map Prod.fst) :=
    (List.filter_sublist _).map Prod.fst
  have := List.enum_map_fst scans
  exact hsub.nodup (this ▸ List.nodup_range scans.length)

theorem length_lookupGroup_groupsOf (scans : List ScanResult) (k : Option Nat) :
    (lookupGroup (groupsOf scans) k).length = countKey scans k := by
  rw [lookupGroup_groupsOf, List.length_map, ← List.countP_eq_length_filter, countKey]
  have h1 : scans.enum.countP (fun p => decide (p.2.meter_key = k)) =
      (scans.enum.map Prod.snd).countP (fun r => decide (r.meter_key = k)) := by
    rw [List.countP_map]
    rfl
  rw [h1, List.enum_map_snd]

theorem lt_length_of_mem_lookupGroup (scans : List ScanResult) (k : Option Nat)
    (j : Nat) (hj : j ∈ lookupGroup (groupsOf scans) k) : j < scans.length := by
  obtain ⟨r, hr, _⟩ := mem_lookupGroup_groupsOf scans k j hj
  by_contra hge
  rw [List.get?_eq_none.mpr (by omega)] at hr
  cases hr

/- ### After one pass of `filter_scans`, every meter key occurs at most once -/

theorem filterScans_count_le_one (scans l' : List ScanResult)
    (h : filterScans scans = Except.ok l') (k : Option Nat) :
    countKey l' k ≤ 1 := by
  rw [filterScans] at h
  by_cases hlen : scans.length < 2
  · rw [if_pos hlen] at h
    obtain rfl : scans = l' := by simpa using h
    calc countKey scans k ≤ scans.length := List.countP_le_length _
      _ ≤ 1 := by omega
  · rw [if_neg hlen] at h
    revert h
    cases hfold : (groupsOf scans).foldlM filterGroup (scans.map some) with
    | error e => intro h; cases h
    | ok final =>
        intro h
        obtain rfl : final.reduceOption = l' := by simpa using h
        have hkeys : ∀ g ∈ groupsOf scans, ∀ j ∈ g.2, j < (scans.map some).length := by
          intro g hg j hj
          rw [List.length_map]
          have heq := mem_eq_lookupGroup _ (nodup_keys_groupsOf scans) g hg
          exact lt_length_of_mem_lookupGroup scans g.1 j (heq ▸ hj)
        obtain ⟨hnf, hbig⟩ := foldlM_filterGroup_spec _ _ _ hfold hkeys
        -- the group of key `k`
        set isk := lookupGroup (groupsOf scans) k with hisk
        -- positional form of the count
        rw [countKey, countP_reduceOption, countP_eq_length_filter_range]
        set P : Option ScanResult → Bool :=
          fun o => (o.map (fun r => decide (r.meter_key = k))).getD false with hP
        set J := (List.range final.length).filter
          (fun j => ((final.get? j).map P).getD false) with hJ
        have hJval : ∀ j ∈ J, ∃ r, final.get? j = some (some r) ∧ r.meter_key = k := by
          intro j hj
          have hcond := (List.mem_filter.mp hj).2
          cases hfj : final.get? j with
          | none => rw [hfj] at hcond; simp at hcond
          | some o =>
              rw [hfj] at hcond
              cases o with
              | none => simp [hP] at hcond
              | some r =>
                  refine ⟨r, rfl, ?_⟩
                  simpa [hP] using hcond
        have hJsub : ∀ j ∈ J, j ∈ isk := by
          intro j hj
          obtain ⟨r, hfj, hrk⟩ := hJval j hj
          rcases hnf.2 j with hh | hh
          · rw [hfj] at hh
            rw [List.get?_map] at hh
            cases hs : scans.get? j with
            | none => rw [hs] at hh; cases hh
            | some r' =>
                rw [hs] at hh
                simp only [Option.map_some'] at hh
                obtain rfl : r = r' := by
                  cases hh
                  rfl
                exact lookupGroup_groupsOf_complete scans k j r hs hrk
          · rw [hfj] at hh
            cases hh
        have hJnodup : J.Nodup :=
          (List.nodup_range final.length).filter _
        by_cases hsz : 2 ≤ isk.length
        · -- the processed group nulled every index except one
          have hmem : (k, isk) ∈ groupsOf scans := by
            apply lookupGroup_mem
            intro hnil
            rw [hisk, hnil] at hsz
            simp at hsz
          obtain ⟨keep, hkeep⟩ := hbig (k, isk) hmem hsz
          have hJkeep : ∀ j ∈ J, j = keep := by
            intro j hj
            by_contra hne
            obtain ⟨r, hfj, _⟩ := hJval j hj
            rw [hkeep j (hJsub j hj) hne] at hfj
            cases hfj
          have : J ⊆ [keep] := by
            intro j hj
            rw [hJkeep j hj]
            simp
          calc J.length ≤ [keep].length := (List.subperm_of_subset hJnodup this).length_le
            _ = 1 := rfl
        · have : J ⊆ isk := hJsub
          calc J.length ≤ isk.length := (List.subperm_of_subset hJnodup this).length_le
            _ ≤ 1 := by omega

theorem foldlM_filterGroup_skip (groups : List (Option Nat × List Nat))
    (w : List (Option ScanResult)) (h : ∀ g ∈ groups, g.2.length < 2) :
    groups.foldlM filterGroup w = Except.ok w := by
  induction groups with
  | nil => rfl
  | cons g rest ih =>
      rw [List.foldlM_cons]
      have hg : filterGroup w g = Except.ok w := by
        rw [filterGroup, if_pos (h g (List.mem_cons_self _ _))]
      rw [hg]
      simp only [Bind.bind, Except.bind]
      exact ih (fun g' hg' => h g' (List.mem_cons_of_mem _ hg'))

theorem reduceOption_map_some (l : List α) : (l.map some).reduceOption = l := by
  induction l with
  | nil => rfl
  | cons a t ih => rw [List.map_cons, List.reduceOption_cons_of_some, ih]

theorem filterScans_of_count_le_one (l' : List ScanResult)
    (hc : ∀ k, countKey l' k ≤ 1) : filterScans l' = Except.ok l' := by
  rw [filterScans]
  by_cases hlen : l'.length < 2
  · rw [if_pos hlen]
  · rw [if_neg hlen]
    have hshort : ∀ g ∈ groupsOf l', g.2.length < 2 := by
      intro g hg
      have heq := mem_eq_lookupGroup _ (nodup_keys_groupsOf l') g hg
      have hlen1 := length_lookupGroup_groupsOf l' g.1
      have hc1 := hc g.1
      rw [heq]
      omega
    rw [foldlM_filterGroup_skip _ _ hshort]
    show Except.ok (List.map some l').reduceOption = Except.ok l'
    rw [reduceOption_map_some]

/-- C1: the claim states that for each `meter_key` shared by two or more
results, `filter_scans` keeps exactly the minimal-cost scan.  The code
instead compares raw scan indices against the *position* of the minimum
within the group (`min_idx` from `enumerate(scan_keys)`), so on the list
`[A(meter 0), B(meter 1, scan "--", cost 40), C(meter 1, scan "=", cost 10)]`
it keeps the costlier `B` (cost 40) and drops the minimal-cost `C`
(cost 10), contradicting the claim (and the function's own docstring
"Remove worst of scans mapping to same meter"). -/
theorem filterScans_keeps_costlier_scan :
    filterScans [scanResA, scanResB, scanResC] = Except.ok [scanResA, scanResB] ∧
    costOfScan scanResB.scan = Except.ok 40 ∧
    costOfScan scanResC.scan = Except.ok 10 ∧
    scanResB.meter_key = scanResC.meter_key :=
  ⟨rfl, rfl, rfl, rfl⟩

/-- C10: applying the default post-scan filter twice yields the same list
as applying it once: whenever `filter_scans(scans)` returns `l'`,
`filter_scans(l')` returns `l'` again.  (After one pass every `meter_key`
occurs at most once, so the second pass touches nothing.) -/
theorem filterScans_idempotent (scans l' : List ScanResult)
    (h : filterScans scans = Except.ok l') :
    filterScans l' = Except.ok l' :=
  filterScans_of_count_le_one l' (filterScans_count_le_one scans l' h)

/-- Witness for C10 at a concrete input: `filter_scans [B, C] = [C]`,
and filtering `[C]` again returns `[C]`. -/
theorem filterScans_idempotent_witness :
    filterScans [scanResC] = Except.ok [scanResC] :=
  filterScans_idempotent [scanResB, scanResC] [scanResC] (by rfl)

/- ### Claim C7: rule costs and rule ordering -/

/-- C7: for every parser rule the computed cost equals
`(−100)·(len(prev_tokens) + len(tokens) + len(next_tokens))
 + (−101)·(len(prev_classes) + len(next_classes))` (absent lists count 0);
the cost is negative whenever `tokens` is nonempty; and the rule list of
a constructed `GraphParser` is sorted by cost ascending. -/
theorem parser_rule_cost_spec :
    (∀ r : RawRule, cost_of r =
      (-100) * ((countOf r.prev_tokens : Int) + r.tokens.length + countOf r.next_tokens) +
      (-101) * ((countOf r.prev_classes : Int) + countOf r.next_classes)) ∧
    (∀ r : RawRule, r.tokens ≠ [] → cost_of r < 0) ∧
    (∀ tokens rules onmatch_rules whitespace,
      ((graphParserOf tokens rules onmatch_rules whitespace).rules).Sorted ruleLE) := by
  refine ⟨?_, ?_, ?_⟩
  · intro r
    unfold cost_of COST_OF_EXACT_TOKEN COST_OF_TOKEN_CLASS
    ring
  · intro r h
    have h1 : 1 ≤ r.tokens.length := by
      cases hr : r.tokens with
      | nil => exact absurd hr h
      | cons _ _ => simp [hr]
    unfold cost_of COST_OF_EXACT_TOKEN COST_OF_TOKEN_CLASS
    have h2 : 0 ≤ (countOf r.prev_classes : Int) := Int.ofNat_nonneg _
    have h3 : 0 ≤ (countOf r.prev_tokens : Int) := Int.ofNat_nonneg _
    have h4 : 0 ≤ (countOf r.next_tokens : Int) := Int.ofNat_nonneg _
    have h5 : 0 ≤ (countOf r.next_classes : Int) := Int.ofNat_nonneg _
    have h6 : 1 ≤ (r.tokens.length : Int) := by exact_mod_cast h1
    nlinarith
  · intro tokens rules om ws
    show (sortedRulesOf rules).Sorted ruleLE
    exact List.sorted_insertionSort ruleLE _

/-- Witness for C7 at a concrete rule and parser. -/
theorem parser_rule_cost_spec_witness :
    cost_of cexRawRule =
      (-100) * ((countOf cexRawRule.prev_tokens : Int) + cexRawRule.tokens.length +
        countOf cexRawRule.next_tokens) +
      (-101) * ((countOf cexRawRule.prev_classes : Int) + countOf cexRawRule.next_classes) ∧
    cexRawRule.tokens ≠ [] ∧ cost_of cexRawRule < 0 ∧
    ((graphParserOf [("a", ["c1"])] [cexRawRule] [] ⟨" ", "wb", false⟩).rules).Sorted ruleLE :=
  ⟨parser_rule_cost_spec.1 cexRawRule, by decide,
   parser_rule_cost_spec.2.1 cexRawRule (by decide),
   parser_rule_cost_spec.2.2 _ _ _ _⟩

/- ### Claim C3: tokenisation of empty / whitespace-only input -/

theorem tokenizerMatch_nil (tokenizer : List String)
    (he : ∀ t ∈ tokenizer, t ≠ "") :
    tokenizerMatch tokenizer [] 0 = none := by
  rw [tokenizerMatch, List.find?_eq_none]
  intro t ht
  have hnn : t.toList ≠ [] := by
    intro hl
    exact he t ht (by simpa using congrArg String.mk hl)
  cases htl : t.toList with
  | nil => exact absurd htl hnn
  | cons c cs => simp [htl, List.isPrefixOf]

theorem foldlM_tokenizeStep_consolidate_ws
    (tokens : List (String × List String)) (ws : Whitespace)
    (hcons : ws.consolidate = true) (ms : List (String × Nat))
    (hws : ∀ m ∈ ms, isWhitespaceToken tokens ws m.1 = Except.ok true)
    (acc : List String × Bool) (h2 : acc.2 = true) :
    ms.foldlM (tokenizeStep tokens ws) acc = Except.ok acc := by
  induction ms with
  | nil => rfl
  | cons m rest ih =>
      rw [List.foldlM_cons]
      have hstep : tokenizeStep tokens ws acc m = Except.ok acc := by
        rw [tokenizeStep, hws m (List.mem_cons_self _ _)]
        simp [Bind.bind, Except.bind, pure, Except.pure, h2, hcons]
      rw [hstep]
      simp only [Bind.bind, Except.bind]
      exact ih (fun m' hm' => hws m' (List.mem_cons_of_mem _ hm'))

theorem foldlM_tokenizeStep_no_consolidate_ws
    (tokens : List (String × List String)) (ws : Whitespace)
    (hcons : ws.consolidate = false) (ms : List (String × Nat))
    (hws : ∀ m ∈ ms, isWhitespaceToken tokens ws m.1 = Except.ok true)
    (acc : List String × Bool) :
    ms.foldlM (tokenizeStep tokens ws) acc =
      Except.ok (acc.1 ++ ms.map (·.1), acc.2) := by
  induction ms generalizing acc with
  | nil => simp [pure, Except.pure]
  | cons m rest ih =>
      rw [List.foldlM_cons]
      have hstep : tokenizeStep tokens ws acc m = Except.ok (acc.1 ++ [m.1], acc.2) := by
        rw [tokenizeStep, hws m (List.mem_cons_self _ _)]
        simp [Bind.bind, Except.bind, pure, Except.pure, hcons]
      rw [hstep]
      simp only [Bind.bind, Except.bind]
      rw [ih (fun m' hm' => hws m' (List.mem_cons_of_mem _ hm')) _]
      simp

/-- C3 (amended): the claim asserted the position-bearing `ValueError` for
empty and whitespace-only input under both `consolidate` settings.  What
the code does: (1) with `consolidate=False`, the empty string (more
generally, input with no matches) fails with the position-bearing
`ValueError` at position 0; (2) with `consolidate=True`, inputs all of
whose matched tokens are whitespace-class (including the empty string)
crash with an `IndexError` in the trailing-whitespace strip loop, not the
position-bearing error; (3) with `consolidate=False`, a fully-consumed
nonempty whitespace-only input tokenizes *successfully*, returning the
whitespace tokens between the two sentinels. -/
theorem tokenize_empty_and_whitespace_spec (gp : GraphParser)
    (he : ∀ t ∈ gp.tokenizer, t ≠ "") :
    (gp.whitespace.consolidate = false →
      gp.tokenize "" = Except.error (PyErr.valueError 0)) ∧
    (gp.whitespace.consolidate = true →
      isWhitespaceToken gp.tokens gp.whitespace gp.whitespace.default = Except.ok true →
      ∀ input : String,
        (∀ m ∈ matchLoop gp.tokenizer input.toList (input.toList.length + 1) 0,
          isWhitespaceToken gp.tokens gp.whitespace m.1 = Except.ok true) →
        gp.tokenize input = Except.error PyErr.indexError) ∧
    (gp.whitespace.consolidate = false →
      ∀ input : String,
        (∀ m ∈ matchLoop gp.tokenizer input.toList (input.toList.length + 1) 0,
          isWhitespaceToken gp.tokens gp.whitespace m.1 = Except.ok true) →
        matchLoop gp.tokenizer input.toList (input.toList.length + 1) 0 ≠ [] →
        (matchLoop gp.tokenizer input.toList (input.toList.length + 1) 0).getLast?.all
          (fun m => m.2 = input.toList.length) →
        gp.tokenize input = Except.ok
          ([gp.whitespace.default] ++
            (matchLoop gp.tokenizer input.toList (input.toList.length + 1) 0).map (·.1) ++
            [gp.whitespace.default])) := by
  refine ⟨?_, ?_, ?_⟩
  · intro hcons
    rw [GraphParser.tokenize]
    have hms : matchLoop gp.tokenizer ("".toList) ("".toList.length + 1) 0 = [] := by
      show matchLoop gp.tokenizer [] 1 0 = []
      rw [matchLoop, tokenizerMatch_nil _ he]
    rw [hms]
    simp [Bind.bind, Except.bind, hcons, pure, Except.pure]
  · intro hcons hd input hws
    rw [GraphParser.tokenize]
    rw [foldlM_tokenizeStep_consolidate_ws _ _ hcons _ hws _ rfl]
    simp only [Bind.bind, Except.bind, hcons, if_pos]
    have hstrip : stripTrailingWs gp.tokens gp.whitespace [gp.whitespace.default]
        = Except.error PyErr.indexError := by
      rw [stripTrailingWs]
      show (stripLeadingWsRev gp.tokens gp.whitespace
        [gp.whitespace.default]).map List.reverse = _
      rw [stripLeadingWsRev, hd]
      simp [Bind.bind, Except.bind, stripLeadingWsRev, Except.map]
    rw [hstrip]
  · intro hcons input hws hne hlast
    rw [GraphParser.tokenize]
    rw [foldlM_tokenizeStep_no_consolidate_ws _ _ hcons _ hws _]
    simp only [Bind.bind, Except.bind, hcons, Bool.false_eq_true, if_false,
      pure, Except.pure]
    cases hms : (matchLoop gp.tokenizer input.toList (input.toList.length + 1) 0) with
    | nil => exact absurd hms hne
    | cons m rest =>
        rw [hms] at hlast
        have h2 : ¬ (([gp.whitespace.default] ++ ((m :: rest).map (·.1)) ++
            [gp.whitespace.default]).length < 2) := by
          simp
        have h3 : ¬ (([gp.whitespace.default] ++ ((m :: rest).map (·.1)) ++
            [gp.whitespace.default]).length = 2) := by
          simp
        rw [if_neg h2, if_neg h3]
        cases hgl : (m :: rest).getLast? with
        | none => simp at hgl
        | some ml =>
            rw [hgl] at hlast
            have hml : ml.2 = input.toList.length := by simpa using hlast
            simp [hml]

/-- C3 counterexample: on the all-whitespace input `" "` with
`consolidate=False`, `tokenize` *succeeds* (returning only whitespace
tokens) instead of raising the position-bearing error; and with
`consolidate=True` it raises `IndexError` (from `tokens[-1]` on an empty
list), not the position-bearing `ValueError`. -/
theorem tokenize_whitespace_only_counterexample :
    tokParserF.tokenize " " = Except.ok [" ", " ", " "] ∧
    isWhitespaceToken tokParserF.tokens tokParserF.whitespace " " = Except.ok true ∧
    tokParserT.tokenize " " = Except.error PyErr.indexError := by
  refine ⟨by decide, by decide, by decide⟩

/-- Witness for the amended C3 theorem at concrete parsers and inputs. -/
theorem tokenize_empty_and_whitespace_spec_witness :
    tokParserF.tokenize "" = Except.error (PyErr.valueError 0) ∧
    tokParserT.tokenize " " = Except.error PyErr.indexError ∧
    tokParserF.tokenize " " = Except.ok [" ", " ", " "] :=
  ⟨(tokenize_empty_and_whitespace_spec tokParserF (by decide)).1 rfl,
   (tokenize_empty_and_whitespace_spec tokParserT (by decide)).2.1 rfl (by decide) " "
     (by decide),
   (tokenize_empty_and_whitespace_spec tokParserF (by decide)).2.2 rfl " "
     (by decide) (by decide) (by decide)⟩

theorem matchTokensLoop_ok (tokens : List (String × List String))
    (input_tokens : List String) (start : Int) (by_class : Bool)
    (l : List (Nat × String))
    (hw : ∀ tok ∈ input_tokens, (alistGet? tokens tok).isSome = true)
    (hb : ∀ p ∈ l, 0 ≤ start + p.1 ∧ (start + p.1).toNat < input_tokens.length) :
    matchTokensLoop tokens input_tokens start by_class l =
      Except.ok (l.all (fun p =>
        match input_tokens.get? (start + p.1).toNat with
        | none => false
        | some tok =>
            if by_class then ((alistGet? tokens tok).getD []).contains p.2
            else tok == p.2)) := by
  induction l with
  | nil => rfl
  | cons p rest ih =>
      obtain ⟨i, cv⟩ := p
      obtain ⟨hge, hlt⟩ := hb (i, cv) (List.mem_cons_self _ _)
      have hbrest := fun q hq => hb q (List.mem_cons_of_mem _ hq)
      have hget : input_tokens.get? (start + (i : Int)).toNat =
          some (getElem input_tokens ((start + (i : Int)).toNat) hlt) :=
        List.get?_eq_get hlt
      have hmem : input_tokens.get ⟨(start + (i : Int)).toNat, hlt⟩ ∈ input_tokens :=
        input_tokens.get_mem _ _
      have hsome := hw _ hmem
      rw [matchTokensLoop, pyIndex_nonneg input_tokens (start + i) hge hlt]
      have hgetE : input_tokens[(start + (i : Int)).toNat]? =
          some ((getElem input_tokens ((start + (i : Int)).toNat) hlt)) :=
        List.getElem?_eq_getElem hlt
      cases by_class with
      | false =>
          by_cases heq : (getElem input_tokens ((start + (i : Int)).toNat) hlt) = cv
          · simp [Bind.bind, Except.bind, pure, Except.pure, ih hbrest, hgetE, heq]
          · simp [Bind.bind, Except.bind, pure, Except.pure, ih hbrest, hgetE, heq]
      | true =>
          cases hcls : alistGet? tokens ((getElem input_tokens ((start + (i : Int)).toNat) hlt)) with
          | none =>
              rw [show (input_tokens.get ⟨(start + (i : Int)).toNat, hlt⟩) =
                (getElem input_tokens ((start + (i : Int)).toNat) hlt) from rfl] at hsome
              rw [hcls] at hsome
              cases hsome
          | some cls =>
              have hclsOf : classesOf tokens
                  ((getElem input_tokens ((start + (i : Int)).toNat) hlt)) = Except.ok cls := by
                rw [classesOf, hcls]
              by_cases hcont : cv ∈ cls
              · simp [Bind.bind, Except.bind, pure, Except.pure, hclsOf, ih hbrest,
                  hgetE, hcls, hcont]
              · simp [Bind.bind, Except.bind, pure, Except.pure, hclsOf, ih hbrest,
                  hgetE, hcls, hcont]

theorem matchTokens_prev_ok (tokens : List (String × List String))
    (input_tokens : List String) (start : Int) (cv : List String) (bc : Bool)
    (hw : ∀ tok ∈ input_tokens, (alistGet? tokens tok).isSome = true)
    (hup : start + cv.length ≤ (input_tokens.length : Int)) :
    matchTokens tokens input_tokens start cv true false bc =
      Except.ok (specWindowOK tokens input_tokens start cv bc) := by
  rw [matchTokens, specWindowOK]
  by_cases hneg : start < 0
  · rw [if_pos (by simp [hneg])]
    have : decide (0 ≤ start) = false := by simp; omega
    rw [this]
    simp
  · rw [if_neg (by simp [hneg]), if_neg (by simp)]
    rw [matchTokensLoop_ok _ _ _ _ _ hw ?hb]
    case hb =>
      intro p hp
      obtain ⟨i, c⟩ := p
      have hlt := (List.mem_enum hp).1
      constructor
      · omega
      · omega
    rw [decide_eq_true (by omega : (0:Int) ≤ start), decide_eq_true hup]
    simp

theorem matchTokens_next_ok (tokens : List (String × List String))
    (input_tokens : List String) (start : Int) (cv : List String) (bc : Bool)
    (hw : ∀ tok ∈ input_tokens, (alistGet? tokens tok).isSome = true)
    (hlo : 0 ≤ start) :
    matchTokens tokens input_tokens start cv false true bc =
      Except.ok (specWindowOK tokens input_tokens start cv bc) := by
  rw [matchTokens, specWindowOK]
  rw [if_neg (by simp)]
  by_cases hbig : start + cv.length > (input_tokens.length : Int)
  · rw [if_pos (by simp [hbig])]
    have : decide (start + cv.length ≤ (input_tokens.length : Int)) = false := by
      simp
      omega
    rw [this]
    simp
  · rw [if_neg (by simp [hbig])]
    rw [matchTokensLoop_ok _ _ _ _ _ hw ?hb]
    case hb =>
      intro p hp
      obtain ⟨i, c⟩ := p
      have hlt := (List.mem_enum hp).1
      constructor
      · omega
      · omega
    rw [decide_eq_true hlo, decide_eq_true (by omega : start + cv.length ≤ (input_tokens.length : Int))]
    simp

theorem constraintCheckPC_ok (tokens : List (String × List String))
    (input_tokens : List String) (token_i : Nat) (c : RuleConstraints)
    (hw : ∀ tok ∈ input_tokens, (alistGet? tokens tok).isSome = true)
    (hti : token_i ≤ input_tokens.length) :
    constraintCheckPC tokens input_tokens token_i c =
      Except.ok (specPC tokens input_tokens token_i c) := by
  rw [constraintCheckPC, specPC]
  cases c.prev_classes with
  | none => rfl
  | some cv => exact matchTokens_prev_ok _ _ _ _ _ hw (by omega)

theorem constraintCheckPT_ok (tokens : List (String × List String))
    (input_tokens : List String) (token_i : Nat) (c : RuleConstraints)
    (hw : ∀ tok ∈ input_tokens, (alistGet? tokens tok).isSome = true)
    (hti : token_i ≤ input_tokens.length) :
    constraintCheckPT tokens input_tokens token_i c =
      Except.ok (specPT tokens input_tokens token_i c) := by
  rw [constraintCheckPT, specPT]
  cases c.prev_tokens with
  | none => rfl
  | some cv => exact matchTokens_prev_ok _ _ _ _ _ hw (by omega)

theorem constraintCheckNT_ok (tokens : List (String × List String))
    (input_tokens : List String) (token_i : Nat) (c : RuleConstraints)
    (hw : ∀ tok ∈ input_tokens, (alistGet? tokens tok).isSome = true) :
    constraintCheckNT tokens input_tokens token_i c =
      Except.ok (specNT tokens input_tokens token_i c) := by
  rw [constraintCheckNT, specNT]
  cases c.next_tokens with
  | none => rfl
  | some cv => exact matchTokens_next_ok _ _ _ _ _ hw (by omega)

theorem constraintCheckNC_ok (tokens : List (String × List String))
    (input_tokens : List String) (token_i : Nat) (c : RuleConstraints)
    (hw : ∀ tok ∈ input_tokens, (alistGet? tokens tok).isSome = true) :
    constraintCheckNC tokens input_tokens token_i c =
      Except.ok (specNC tokens input_tokens token_i c) := by
  rw [constraintCheckNC, specNC]
  cases c.next_classes with
  | none => rfl
  | some cv => exact matchTokens_next_ok _ _ _ _ _ hw (by omega)

/-- C5: during rule matching, each context constraint of a candidate rule
is checked against exactly the token window of the spec's table (with
`token_i` the position just after the rule's consumed tokens):
`prev_tokens` from `token_i − 1 − len(prev_tokens)`, `prev_classes` from
`token_i − 1 − len(prev_tokens) − len(prev_classes)`, `next_tokens` from
`token_i`, `next_classes` from `token_i + len(next_tokens)`; a window
reaching outside `[0, len(tokens))` fails the constraint and no token
outside the list is read; otherwise each position is checked by token
equality or class membership.  (`token_i ≤ len(tokens)` holds at every
call site: `_match_at` asserts `token_i < len(tokens)` before matching.) -/
theorem match_constraints_window_spec (tokens : List (String × List String))
    (input_tokens : List String) (edge : PEdge) (token_i : Nat)
    (hw : ∀ tok ∈ input_tokens, (alistGet? tokens tok).isSome = true)
    (hti : token_i ≤ input_tokens.length) :
    matchConstraints tokens input_tokens edge token_i =
      Except.ok (match edge.constraints with
        | none => true
        | some c => specMatchConstraints tokens input_tokens token_i c) := by
  rw [matchConstraints]
  cases hc : edge.constraints with
  | none => rfl
  | some c =>
      simp only [constraintCheckPC_ok tokens input_tokens token_i c hw hti,
        constraintCheckPT_ok tokens input_tokens token_i c hw hti,
        constraintCheckNT_ok tokens input_tokens token_i c hw,
        constraintCheckNC_ok tokens input_tokens token_i c hw]
      simp only [Bind.bind, Except.bind]
      rw [specMatchConstraints]
      generalize specPT tokens input_tokens token_i c = b1
      generalize specPC tokens input_tokens token_i c = b2
      generalize specNT tokens input_tokens token_i c = b3
      generalize specNC tokens input_tokens token_i c = b4
      cases b1 <;> cases b2 <;> cases b3 <;> cases b4 <;> simp [pure, Except.pure]

/-- Witness for C5 at a concrete edge, token window and position. -/
theorem match_constraints_window_spec_witness :
    matchConstraints cexTokens [" ", "a", "a", " "] cexEdge 3 =
      Except.ok (specMatchConstraints cexTokens [" ", "a", "a", " "] 3
        ⟨none, some ["a"], none, none⟩) :=
  match_constraints_window_spec cexTokens [" ", "a", "a", " "] cexEdge 3
    (by decide) (by decide)

theorem find?_filter_of_imp (l : List α) (p q : α → Bool)
    (h : ∀ a ∈ l, p a = true → q a = true) :
    (l.filter q).find? p = l.find? p := by
  induction l with
  | nil => rfl
  | cons a rest ih =>
      have ihrest := ih (fun a' ha' hp => h a' (List.mem_cons_of_mem _ ha') hp)
      by_cases hq : q a = true
      · rw [List.filter_cons_of_pos hq]
        cases hpa : p a with
        | true =>
            rw [List.find?_cons_of_pos _ hpa, List.find?_cons_of_pos _ hpa]
        | false =>
            rw [List.find?_cons_of_neg _ (by simp [hpa]),
              List.find?_cons_of_neg _ (by simp [hpa]), ihrest]
      · rw [List.filter_cons_of_neg hq]
        have hpa : p a = false := by
          cases hp : p a with
          | false => rfl
          | true => exact absurd (h a (List.mem_cons_self _ _) hp) hq
        rw [List.find?_cons_of_neg _ (by simp [hpa]), ihrest]

theorem alistGet?_map (l : List (String × β)) (f : String × β → γ) (k : String) :
    alistGet? (l.map (fun p => (p.1, f p))) k =
      (l.find? (fun p => p.1 == k)).map f := by
  rw [alistGet?]
  rw [List.find?_map]
  rw [Option.map_map]
  rfl

theorem onmatchLookupAt_eq (tokens : List (String × List String))
    (rules : List OnMatchRule) (curr_t prev_t : String)
    (hcur : (alistGet? tokens curr_t).isSome = true)
    (hprev : (alistGet? tokens prev_t).isSome = true) :
    onmatchLookupAt (onmatchRulesLookup tokens rules) curr_t prev_t =
      Except.ok (rules.filter (fun r =>
        (r.next_classes.head?.elim false
          (fun c => ((alistGet? tokens curr_t).getD []).contains c)) &&
        (r.prev_classes.getLast?.elim false
          (fun c => ((alistGet? tokens prev_t).getD []).contains c)))) := by
  rw [onmatchLookupAt, onmatchRulesLookup]
  rw [alistGet?_map tokens _ curr_t]
  cases hfc : tokens.find? (fun p => p.1 == curr_t) with
  | none =>
      rw [alistGet?, hfc] at hcur
      cases hcur
  | some ec =>
      have hacur : alistGet? tokens curr_t = some ec.2 := by rw [alistGet?, hfc]; rfl
      simp only [Option.map_some']
      rw [alistGet?_map tokens _ prev_t]
      cases hfp : tokens.find? (fun p => p.1 == prev_t) with
      | none =>
          rw [alistGet?, hfp] at hprev
          cases hprev
      | some ep =>
          have haprev : alistGet? tokens prev_t = some ep.2 := by rw [alistGet?, hfp]; rfl
          simp only [Option.map_some']
          rw [hacur, haprev]
          rfl

theorem onmatchFirst_eq_find? (tokens : List (String × List String))
    (input_tokens : List String) (token_i : Nat) (l : List OnMatchRule)
    (hw : ∀ tok ∈ input_tokens, (alistGet? tokens tok).isSome = true)
    (hti : token_i ≤ input_tokens.length) :
    onmatchFirst tokens input_tokens token_i l =
      Except.ok ((l.find?
        (specOnmatchMatches tokens input_tokens token_i)).map (·.production)) := by
  induction l with
  | nil => rfl
  | cons r rest ih =>
      rw [onmatchFirst]
      rw [matchTokens_prev_ok _ _ _ _ _ hw (by omega)]
      simp only [Bind.bind, Except.bind]
      cases hb1 : specWindowOK tokens input_tokens
          ((token_i : Int) - r.prev_classes.length) r.prev_classes true with
      | false =>
          rw [if_neg (by simp [hb1])]
          rw [List.find?_cons_of_neg _ (by simp [specOnmatchMatches, hb1])]
          exact ih
      | true =>
          rw [if_pos (by simp [hb1])]
          rw [matchTokens_next_ok _ _ _ _ _ hw (by omega)]
          simp only [Bind.bind, Except.bind]
          cases hb2 : specWindowOK tokens input_tokens (token_i : Int)
              r.next_classes true with
          | false =>
              rw [if_neg (by simp [hb2])]
              rw [List.find?_cons_of_neg _ (by simp [specOnmatchMatches, hb1, hb2])]
              exact ih
          | true =>
              rw [if_pos (by simp [hb2])]
              rw [List.find?_cons_of_pos _ (by simp [specOnmatchMatches, hb1, hb2])]
              simp [pure, Except.pure]

theorem specOnmatch_imp_prefilter (tokens : List (String × List String))
    (input_tokens : List String) (token_i : Nat) (r : OnMatchRule)
    (curr_t prev_t : String)
    (h1 : 1 ≤ token_i) (h2 : token_i < input_tokens.length)
    (hpne : r.prev_classes ≠ []) (hnne : r.next_classes ≠ [])
    (hcurr : input_tokens.get? token_i = some curr_t)
    (hprev : input_tokens.get? (token_i - 1) = some prev_t)
    (hm : specOnmatchMatches tokens input_tokens token_i r = true) :
    ((r.next_classes.head?.elim false
        (fun c => ((alistGet? tokens curr_t).getD []).contains c)) &&
     (r.prev_classes.getLast?.elim false
        (fun c => ((alistGet? tokens prev_t).getD []).contains c))) = true := by
  rw [specOnmatchMatches, Bool.and_eq_true] at hm
  obtain ⟨hmp, hmn⟩ := hm
  rw [specWindowOK] at hmp hmn
  rw [Bool.and_eq_true, Bool.and_eq_true] at hmp hmn
  obtain ⟨⟨_, _⟩, hallp⟩ := hmp
  obtain ⟨⟨_, _⟩, halln⟩ := hmn
  rw [List.all_eq_true] at hallp halln
  -- the head of next_classes
  have hlenN : 0 < r.next_classes.length := List.length_pos.mpr hnne
  have hheadN : r.next_classes.get? 0 = some (r.next_classes.get ⟨0, hlenN⟩) :=
    List.get?_eq_get hlenN
  have hmemN : ((0 : Nat), r.next_classes.get ⟨0, hlenN⟩) ∈ r.next_classes.enum := by
    apply List.get?_mem (n := 0)
    rw [List.get?_enum, hheadN]
    rfl
  have hinstN := halln _ hmemN
  have hidxN : (((token_i : Nat) : Int) + (((0 : Nat) : Nat) : Int)).toNat = token_i := by
    omega
  rw [hidxN, hcurr] at hinstN
  -- the last of prev_classes
  have hlenP : 0 < r.prev_classes.length := List.length_pos.mpr hpne
  have hlastP : r.prev_classes.get? (r.prev_classes.length - 1) =
      some (r.prev_classes.get ⟨r.prev_classes.length - 1, by omega⟩) :=
    List.get?_eq_get (by omega)
  have hmemP : ((r.prev_classes.length - 1 : Nat),
      r.prev_classes.get ⟨r.prev_classes.length - 1, by omega⟩) ∈
        r.prev_classes.enum := by
    apply List.get?_mem (n := r.prev_classes.length - 1)
    rw [List.get?_enum, hlastP]
    rfl
  have hinstP := hallp _ hmemP
  have hidxP : (((token_i : Nat) : Int) - (r.prev_classes.length : Int) +
      (((r.prev_classes.length - 1 : Nat) : Nat) : Int)).toNat = token_i - 1 := by
    omega
  rw [hidxP, hprev] at hinstP
  -- assemble
  have hh : ∀ (l : List String), l.head? = l.get? 0 := fun l => by cases l <;> rfl
  have hhead? : r.next_classes.head? = some (r.next_classes.get ⟨0, hlenN⟩) := by
    rw [hh r.next_classes, hheadN]
  have hlast? : r.prev_classes.getLast? =
      some (r.prev_classes.get ⟨r.prev_classes.length - 1, by omega⟩) := by
    rw [List.getLast?_eq_get?, hlastP]
  rw [hhead?, hlast?]
  simp only [Option.elim]
  rw [Bool.and_eq_true]
  constructor
  · simpa using hinstN
  · simpa using hinstP

theorem pyIndex_natCast (l : List α) (n : Nat) (h : n < l.length) :
    pyIndex l (n : Int) = Except.ok (l.get ⟨n, h⟩) := by
  have h' : ((n : Int)).toNat < l.length := by simpa using h
  have := pyIndex_nonneg l (n : Int) (by omega) h'
  simpa using this

/-- C6: at every boundary between two adjacent rule matches, at most one
on-match production is emitted (`onmatchProductionAt` returns at most one
production, mirroring the `break`), and when one is emitted it is the
production of the first `OnMatchRule` in the input-order rule list whose
full `prev_classes` sequence matches backward from the boundary and whose
full `next_classes` sequence matches forward from it (`List.find?` over
the input-order list). -/
theorem onmatch_boundary_spec (tokens : List (String × List String))
    (rules : List RawRule) (onmatch_rules : List OnMatchRule)
    (whitespace : Whitespace) (input_tokens : List String) (token_i : Nat)
    (hw : ∀ tok ∈ input_tokens, (alistGet? tokens tok).isSome = true)
    (h1 : 1 ≤ token_i) (h2 : token_i < input_tokens.length)
    (hne : ∀ r ∈ onmatch_rules, r.prev_classes ≠ [] ∧ r.next_classes ≠ []) :
    onmatchProductionAt (graphParserOf tokens rules onmatch_rules whitespace)
        input_tokens token_i =
      Except.ok ((onmatch_rules.find?
        (specOnmatchMatches tokens input_tokens token_i)).map (·.production)) := by
  rw [onmatchProductionAt]
  have hgpl : (graphParserOf tokens rules onmatch_rules whitespace).onmatch_rules_lookup
      = onmatchRulesLookup tokens onmatch_rules := rfl
  have hgpt : (graphParserOf tokens rules onmatch_rules whitespace).tokens = tokens := rfl
  have hcast : ((token_i : Int) - 1) = ((token_i - 1 : Nat) : Int) := by omega
  have hlt1 : token_i - 1 < input_tokens.length := by omega
  rw [hcast, pyIndex_natCast input_tokens (token_i - 1) hlt1,
    pyIndex_natCast input_tokens token_i h2]
  simp only [Bind.bind, Except.bind]
  set prev_t := input_tokens.get ⟨token_i - 1, hlt1⟩ with hprevt
  set curr_t := input_tokens.get ⟨token_i, h2⟩ with hcurrt
  have hprevMem : prev_t ∈ input_tokens := input_tokens.get_mem _ _
  have hcurrMem : curr_t ∈ input_tokens := input_tokens.get_mem _ _
  rw [hgpl, onmatchLookupAt_eq tokens onmatch_rules curr_t prev_t
    (hw _ hcurrMem) (hw _ hprevMem)]
  rw [hgpt]
  show onmatchFirst tokens input_tokens token_i _ = _
  rw [onmatchFirst_eq_find? tokens input_tokens token_i _ hw (by omega)]
  rw [find?_filter_of_imp]
  intro r hr hp
  exact specOnmatch_imp_prefilter tokens input_tokens token_i r curr_t prev_t
    h1 h2 (hne r hr).1 (hne r hr).2
    (List.get?_eq_get h2) (List.get?_eq_get hlt1) hp

/-- Witness for C6 at a concrete parser and boundary. -/
theorem onmatch_boundary_spec_witness :
    onmatchProductionAt (graphParserOf omTokens omRawRules [omRule] ⟨" ", "wb", true⟩)
        [" ", "a", "b", " "] 2 =
      Except.ok (([omRule].find?
        (specOnmatchMatches omTokens [" ", "a", "b", " "] 2)).map (·.production)) :=
  onmatch_boundary_spec omTokens omRawRules [omRule] ⟨" ", "wb", true⟩
    [" ", "a", "b", " "] 2 (by decide) (by decide) (by decide) (by decide)

/- ### Claim C4: state effect of `parse` -/

/-- C4 counterexample: `parse` *does* mutate parser state — it stores the
token list of the input in the `_input_tokens` field
(`self._input_tokens = tokens`, `graphparser.py:253`), so not every field
is identical after the call: before the call `_input_tokens` is `None`,
afterwards it is the token list. -/
theorem parse_mutates_input_tokens :
    tokParserF.input_tokens = none ∧
    (GraphParser.parse tokParserF "a" 100).1.input_tokens = some [" ", "a", " "] ∧
    (GraphParser.parse tokParserF "a" 100).2 = Except.ok "A" ∧
    (GraphParser.parse tokParserF "a" 100).1 ≠ tokParserF := by
  refine ⟨by decide, by decide, by decide, by decide⟩

/-- C4 (amended): `GraphParser.parse` leaves every field of the parser
unchanged — tokens, rules, on-match rules and their lookup, whitespace,
tokenizer and parser graph — *except* `_input_tokens`, which is set to the
tokenisation of the input when `tokenize` succeeds and is untouched when
`tokenize` raises (whether the subsequent matching returns or raises). -/
theorem parse_state_effect (gp : GraphParser) (input : String) (fuel : Nat) :
    ((GraphParser.parse gp input fuel).1.tokens = gp.tokens ∧
     (GraphParser.parse gp input fuel).1.rules = gp.rules ∧
     (GraphParser.parse gp input fuel).1.onmatch_rules = gp.onmatch_rules ∧
     (GraphParser.parse gp input fuel).1.onmatch_rules_lookup = gp.onmatch_rules_lookup ∧
     (GraphParser.parse gp input fuel).1.whitespace = gp.whitespace ∧
     (GraphParser.parse gp input fuel).1.tokenizer = gp.tokenizer ∧
     (GraphParser.parse gp input fuel).1.graph = gp.graph) ∧
    (GraphParser.parse gp input fuel).1.input_tokens =
      (match gp.tokenize input with
       | Except.ok toks => some toks
       | Except.error _ => gp.input_tokens) := by
  rw [GraphParser.parse]
  cases gp.tokenize input with
  | error e => simp
  | ok toks => simp

/-- C2: the claim states that after merging, each meter contributes
exactly one accepting node and no two accepting nodes share a
`meter_key`, because type matching applies to `=`, `-`, `_` nodes only
and never maps one meter's accepting node onto another's.  In the code,
`child_of_type` is applied to *every* child type including `Accepting`
(`initialize.py:526-530`), so for the meters list `["=", "="]` the second
meter's accepting node is type-matched onto the first meter's: the merged
graph has a single accepting node, carrying `meter_key = 0` only, and
meter 1 contributes no accepting node at all. -/
theorem meters_graph_shares_accepting :
    metersGraphOf ["=", "="] 1000 = Except.ok sharedAcceptingGraph ∧
    (sharedAcceptingGraph.nodes.filter (fun n => n.type == "Accepting")).length = 1 ∧
    (sharedAcceptingGraph.nodes.filter (fun n => n.meter_key == some 1)).length = 0 :=
  ⟨by decide, by decide, by decide⟩

theorem mapE_mem {α β : Type} {f : α → Except PyErr β} :
    ∀ {l : List α} {ys : List β}, mapE f l = Except.ok ys →
      ∀ y ∈ ys, ∃ x ∈ l, f x = Except.ok y := by
  intro l
  induction l with
  | nil =>
      intro ys h y hy
      simp only [mapE, Except.ok.injEq] at h
      subst h
      simp at hy
  | cons x xs ih =>
      intro ys h y hy
      cases hfx : f x with
      | error e => simp [mapE, hfx] at h
      | ok b =>
          cases hrest : mapE f xs with
          | error e => simp [mapE, hfx, hrest] at h
          | ok bs =>
              simp only [mapE, hfx, hrest, Except.ok.injEq] at h
              subst h
              rcases List.mem_cons.mp hy with rfl | hy2
              · exact ⟨x, List.mem_cons_self x xs, hfx⟩
              · obtain ⟨x', hx', hfx'⟩ := ih hrest y hy2
                exact ⟨x', List.mem_cons_of_mem x hx', hfx'⟩

theorem typesData_append_one (ms : List MatchData) (md : MatchData) :
    typesData (ms ++ [md]) = typesData ms ++ md.type.data := by
  simp [typesData]

theorem strData_append (a b : String) : (a ++ b).data = a.data ++ b.data := rfl

theorem removeSlash_of_no_slash {s : String} (h : '/' ∉ s.data) :
    removeSlash s = s := by
  unfold removeSlash
  have h2 : s.data.filter (fun c => c != '/') = s.data := by
    apply List.filter_eq_self.mpr
    intro a ha
    have hne : a ≠ '/' := fun he => h (he ▸ ha)
    simp [hne]
  rw [h2]

theorem mkMatchData_type (gd : Bool) (nt : String) (rule : ScanRule)
    (orig : List String) (pk nk ti : Nat) :
    (mkMatchData gd nt rule orig pk nk ti).type = nt := by
  cases gd <;> simp [mkMatchData, MatchData.type]

theorem pushesOf_shape {ttoks : List (List String)} {gd : Bool}
    {parser : SParser} {children : List Nat} {it : ScanIteration}
    {nt : String} {rm : List Nat} {pushed : List ScanIteration}
    (h : pushesOf ttoks gd parser children it nt rm = Except.ok pushed) :
    ∀ p ∈ pushed, ∃ md : MatchData, md.type = nt ∧
      p.matches' = it.matches' ++ [md] ∧
      p.matched_so_far = it.matched_so_far ++ nt := by
  intro p hp
  cases hm : mapE (pushOfRule ttoks gd parser children it nt) rm.reverse with
  | error e => simp [pushesOf, hm] at h
  | ok ls =>
      simp only [pushesOf, hm, Except.ok.injEq] at h
      subst h
      rw [List.mem_reverse] at hp
      obtain ⟨inner, hin, hpin⟩ := List.mem_join.mp hp
      obtain ⟨rk, _, hrk⟩ := mapE_mem hm inner hin
      rw [pushOfRule] at hrk
      cases hrule : parser.rules.get? rk with
      | none => rw [hrule] at hrk; exact absurd hrk (by simp)
      | some rule =>
          rw [hrule] at hrk
          simp only [] at hrk
          obtain ⟨ck, _, hck⟩ := mapE_mem hrk p hpin
          cases horig : origTokensOf ttoks it.token_i rule.tokens.length with
          | error e => simp [pushOfChild, horig] at hck
          | ok orig =>
              simp only [pushOfChild, horig, Except.ok.injEq] at hck
              subst hck
              exact ⟨mkMatchData gd nt rule orig it.parent_key it.node_key
                it.token_i, mkMatchData_type gd nt rule orig _ _ _, rfl, rfl⟩

theorem scanStep_ok {sc : Scanner} {ttoks : List (List String)}
    {tokens : List String} {gd sf : Bool} {p0 : Option SParser}
    {it : ScanIteration}
    {out : Option ScanResult × List ScanIteration × Option SParser}
    (hg : ∀ n ∈ sc.translation_graph.nodes, '/' ∉ n.type.data)
    (hff : ∀ ff, sc.find_feet = some ff →
      ∀ s, removeSlash (ff s) = removeSlash s)
    (hit : IterOK it)
    (h : scanStep sc ttoks tokens gd sf p0 it = Except.ok out) :
    (∀ r, out.1 = some r → concatTypes r.matches' = removeSlash r.scan) ∧
      (∀ p ∈ out.2.1, IterOK p) := by
  have hmk : concatTypes it.matches' = it.matched_so_far := by
    unfold concatTypes
    rw [← hit.1]
  unfold scanStep at h
  split at h
  · exact absurd h (by simp)
  · rename_i node hnode
    have hslash : '/' ∉ node.type.data := hg node (List.get?_mem hnode)
    split at h
    · -- accepting node
      split at h
      · -- final whitespace: a scan completes
        split at h
        · exact absurd h (by simp)
        · rename_i msf hmsf
          simp only [Except.ok.injEq] at h
          subst h
          refine ⟨?_, by intro p hp; simp at hp⟩
          intro r hr
          simp only [Option.some.injEq] at hr
          subst hr
          -- msf is matched_so_far, possibly with feet added
          split at hmsf
          · cases hfeet : sc.find_feet with
            | none => rw [hfeet] at hmsf; exact absurd hmsf (by simp)
            | some ff =>
                rw [hfeet] at hmsf
                simp only [Except.ok.injEq] at hmsf
                subst hmsf
                show concatTypes it.matches' = removeSlash (ff it.matched_so_far)
                rw [hff ff hfeet, removeSlash_of_no_slash hit.2, hmk]
          · simp only [Except.ok.injEq] at hmsf
            subst hmsf
            show concatTypes it.matches' = removeSlash it.matched_so_far
            rw [removeSlash_of_no_slash hit.2, hmk]
      · -- not at final whitespace: nothing produced
        simp only [Except.ok.injEq] at h
        subst h
        exact ⟨by intro r hr; simp at hr, by intro p hp; simp at hp⟩
    · -- non-accepting node
      split at h
      · exact absurd h (by simp)
      · exact absurd h (by simp)
      · split at h
        · -- no rules matched
          simp only [Except.ok.injEq] at h
          subst h
          exact ⟨by intro r hr; simp at hr, by intro p hp; simp at hp⟩
        · split at h
          · exact absurd h (by simp)
          · split at h
            · exact absurd h (by simp)
            · rename_i pushed hpushed
              simp only [Except.ok.injEq] at h
              subst h
              refine ⟨by intro r hr; simp at hr, ?_⟩
              intro p hp
              obtain ⟨md, hmdt, hpm, hpsf⟩ := pushesOf_shape hpushed p hp
              constructor
              · rw [hpsf, hpm, strData_append, typesData_append_one,
                  hit.1, hmdt]
              · rw [hpsf, strData_append]
                intro hmem
                rcases List.mem_append.mp hmem with hmem1 | hmem2
                · exact hit.2 hmem1
                · exact hslash hmem2

theorem scanLoop_ok {sc : Scanner} {ttoks : List (List String)}
    {tokens : List String} {fo gd sf : Bool}
    (hg : ∀ n ∈ sc.translation_graph.nodes, '/' ∉ n.type.data)
    (hff : ∀ ff, sc.find_feet = some ff →
      ∀ s, removeSlash (ff s) = removeSlash s) :
    ∀ (fuel : Nat) (completed : List ScanResult) (stack : List ScanIteration)
      (p0 : Option SParser) (res : List ScanResult),
      (∀ x ∈ stack, IterOK x) →
      (∀ r ∈ completed, concatTypes r.matches' = removeSlash r.scan) →
      scanLoop sc ttoks tokens fo gd sf fuel completed stack p0 =
        Except.ok res →
      ∀ r ∈ res, concatTypes r.matches' = removeSlash r.scan := by
  intro fuel
  induction fuel with
  | zero =>
      intro completed stack p0 res _ _ h
      simp [scanLoop] at h
  | succ fuel ih =>
      intro completed stack p0 res hstack hcomp h
      cases stack with
      | nil =>
          simp only [scanLoop, Except.ok.injEq] at h
          subst h
          exact hcomp
      | cons it rest =>
          rw [scanLoop] at h
          cases hstep : scanStep sc ttoks tokens gd sf p0 it with
          | error e => rw [hstep] at h; exact absurd h (by simp)
          | ok out =>
              obtain ⟨resOpt, pushes, p1⟩ := out
              rw [hstep] at h
              simp only [] at h
              obtain ⟨hres, hpush⟩ :=
                scanStep_ok hg hff (hstack it (List.mem_cons_self it rest)) hstep
              have hcomp' : ∀ r ∈ completed ++ resOpt.toList,
                  concatTypes r.matches' = removeSlash r.scan := by
                intro r hr
                rcases List.mem_append.mp hr with hr1 | hr2
                · exact hcomp r hr1
                · exact hres r (Option.mem_toList.mp hr2)
              split at h
              · simp only [Except.ok.injEq] at h
                subst h
                exact hcomp'
              · exact ih (completed ++ resOpt.toList) (pushes ++ rest) p1 res
                  (by
                    intro x hx
                    rcases List.mem_append.mp hx with hx1 | hx2
                    · exact hpush x hx1
                    · exact hstack x (List.mem_cons_of_mem it hx2))
                  hcomp' h

/-- C9: for every scan result `r` returned by `Scanner.scan` (with or
without `graph_details`, `first_only` or `show_feet`), the concatenation
of the `type` fields of `r.matches`, in order, equals `r.scan` with all
foot-separator `/` characters removed — provided the translation graph's
node types contain no `/`, `find_feet` (when set) only inserts or removes
`/` characters, and the post-scan filter (when set) only selects among
its input results, as the default `filter_scans` does. -/
theorem scan_types_concat (sc : Scanner) (ttoks : List (List String))
    (tokens : List String) (fo gd sf : Bool) (fuel : Nat)
    (res : List ScanResult)
    (hg : ∀ n ∈ sc.translation_graph.nodes, '/' ∉ n.type.data)
    (hff : ∀ ff, sc.find_feet = some ff →
      ∀ s, removeSlash (ff s) = removeSlash s)
    (hpf : ∀ f, sc.post_scan_filter = some f →
      ∀ (l : List ScanResult) r, r ∈ f l → r ∈ l)
    (h : sc.scan ttoks tokens fo gd sf fuel = Except.ok res) :
    ∀ r ∈ res, concatTypes r.matches' = removeSlash r.scan := by
  intro r hr
  unfold Scanner.scan at h
  split at h
  · exact absurd h (by simp)
  · cases hloop : scanLoop sc ttoks tokens fo gd sf fuel []
        (((sc.translation_graph.edgeChildren 0).map
          (fun k => ScanIteration.mk k 0 0 [] "")).reverse) none with
    | error e => rw [hloop] at h; exact absurd h (by simp)
    | ok completed =>
        rw [hloop] at h
        simp only [] at h
        have hall : ∀ x ∈ completed,
            concatTypes x.matches' = removeSlash x.scan := by
          refine scanLoop_ok hg hff fuel [] _ none completed ?_
            (by intro x hx; simp at hx) hloop
          intro x hx
          rw [List.mem_reverse] at hx
          obtain ⟨k, _, hk⟩ := List.mem_map.mp hx
          subst hk
          exact ⟨rfl, by simp⟩
        split at h
        · cases hpost : sc.post_scan_filter with
          | some f =>
              rw [hpost] at h
              simp only [Except.ok.injEq] at h
              subst h
              exact hall r (hpf f hpost completed r hr)
          | none =>
              rw [hpost] at h
              simp only [Except.ok.injEq] at h
              subst h
              exact hall r hr
        · simp only [Except.ok.injEq] at h
          subst h
          exact hall r hr

theorem scan_types_concat_witness :
    wScanner.scan [["x"], [" "]] ["a", " "] false false false 5 =
      Except.ok [wRes] ∧
    concatTypes wRes.matches' = removeSlash wRes.scan :=
  ⟨rfl, scan_types_concat wScanner [["x"], [" "]] ["a", " "] false false false
    5 [wRes] (by decide) (fun ff hf => nomatch hf) (fun f hf => nomatch hf)
    rfl wRes (List.mem_cons_self wRes [])⟩

theorem cexMeterGraph_reach_root : ∀ b, NReach cexMeterGraph 0 b → b = 0 := by
  intro b h
  induction h with
  | refl => rfl
  | step _ hmem ih =>
      subst ih
      simp [cexMeterGraph] at hmem

/-- C8: the claim states that every meter regex accepted by the builder
yields a minimised graph with no `Split` node and exactly one `Accepting`
node reachable from the root of type `0`.  The code never rejects a regex
with an unclosed `(`: `_regex_to_postfix` tracks `paren`/`natom`/`nalt`
but performs no final balance check, and `_postfix_to_ndfa` silently
discards leftover fragments on its stack.  For the meter regex `"(="` the
pipeline succeeds and returns a three-node graph whose only edge is
`(1, 2)`: the root `0` has no outgoing edge, so the unique accepting
node (key 2) is not reachable from it. -/
theorem meter_graph_unreachable_accepting :
    minimizedGraphOfMeter "(=" 1000 = Except.ok cexMeterGraph ∧
    cexMeterGraph.nodes.get? 0 = some ⟨"0", none⟩ ∧
    (cexMeterGraph.nodes.filter (fun n => n.type == "Accepting")).length = 1 ∧
    cexMeterGraph.nodes.get? 2 = some ⟨"Accepting", none⟩ ∧
    ¬ NReach cexMeterGraph 0 2 :=
  ⟨by decide, rfl, by decide, rfl,
    fun h => absurd (cexMeterGraph_reach_root 2 h) (by decide)⟩
